import Mathlib

/-!
Verification of the tx2-link replication-engine core: the delta compressor
(`src/compression.rs`), the sliding-window rate limiter (`src/rate_limit.rs`),
the schema registry and validator (`src/schema.rs`) and the sync manager
(`src/sync.rs`), shallowly embedded in Lean.

Modelling conventions:
* Rust `HashMap`/`AHashMap` state is represented by association lists; the
  unspecified hash-iteration order is fixed to first-insertion order, which is
  one admissible order (the spec only promises "up to iteration order").
* `f32`/`f64` values are carried as their IEEE bit patterns (`Nat`); Rust's
  `==` on floats (used by `derive(PartialEq)`) is modelled explicitly, so that
  `NaN != NaN` and `-0.0 == 0.0` behave exactly as in the source.
* Machine integers `u8..u64` are carried as `Nat`, `i8..i64` as `Int`; none of
  the verified operations perform arithmetic on them, so no wrapping occurs.
* `Instant`/`Duration` are modelled as `Nat` milliseconds passed explicitly to
  each operation (the source calls `Instant::now()` internally).
-/

namespace TxLink

/-! ### Association-list primitives (the model of Rust hash maps) -/

/-- Lookup of the first binding of `k`, i.e. `HashMap::get`. -/
def alLookup {κ α : Type} [DecidableEq κ] (k : κ) : List (κ × α) → Option α
  | [] => none
  | (k', v) :: t => if k' = k then some v else alLookup k t

/-- Insert-or-replace, i.e. `HashMap::insert`: replaces the binding of `k` in
place if present, otherwise appends it. -/
def alInsert {κ α : Type} [DecidableEq κ] (k : κ) (v : α) : List (κ × α) → List (κ × α)
  | [] => [(k, v)]
  | (k', v') :: t => if k' = k then (k, v) :: t else (k', v') :: alInsert k v t

/-- Removal of all bindings of `k`, i.e. `HashMap::remove`. -/
def alRemove {κ α : Type} [DecidableEq κ] (k : κ) (l : List (κ × α)) : List (κ × α) :=
  l.filter (fun p => decide (p.1 ≠ k))

/-- The model of `xs.iter().map(|x| (key(x), x)).collect::<HashMap<_,_>>()`:
later occurrences of a key overwrite earlier ones. -/
def indexBy {κ α : Type} [DecidableEq κ] (key : α → κ) (xs : List α) : List (κ × α) :=
  xs.foldl (fun acc x => alInsert (key x) x acc) []

/-- Pointwise equality of two lists under an element test (`Vec` equality in
`derive(PartialEq)` terms). -/
def listBeq {α : Type} (eq : α → α → Bool) : List α → List α → Bool
  | [], [] => true
  | x :: xs, y :: ys => eq x y && listBeq eq xs ys
  | _, _ => false

/-- Relation on key-value pairs: equal keys, related values (used to relate
the hash indexes of two structurally equal snapshots). -/
def PairRel {κ α : Type} (R : α → α → Prop) (p q : κ × α) : Prop :=
  p.1 = q.1 ∧ R p.2 q.2

/-! ### IEEE float equality on bit patterns

Rust `f64`/`f32` `==` (IEEE 754): `NaN` is not equal to anything, `-0.0` and
`+0.0` are equal, and every other value is equal exactly to its own bit
pattern. -/

/-- Is the `f64` bit pattern a NaN (exponent all ones, non-zero mantissa)? -/
def f64IsNaN (b : Nat) : Bool :=
  ((b >>> 52) &&& 0x7FF) == 0x7FF && (b &&& 0xFFFFFFFFFFFFF) != 0

/-- Is the `f64` bit pattern a (positive or negative) zero? -/
def f64IsZero (b : Nat) : Bool :=
  (b &&& 0x7FFFFFFFFFFFFFFF) == 0

/-- Rust `==` on `f64`, on bit patterns. -/
def f64Eq (a b : Nat) : Bool :=
  !f64IsNaN a && !f64IsNaN b && (a == b || (f64IsZero a && f64IsZero b))

/-- Is the `f32` bit pattern a NaN? -/
def f32IsNaN (b : Nat) : Bool :=
  ((b >>> 23) &&& 0xFF) == 0xFF && (b &&& 0x7FFFFF) != 0

/-- Is the `f32` bit pattern a (positive or negative) zero? -/
def f32IsZero (b : Nat) : Bool :=
  (b &&& 0x7FFFFFFF) == 0

/-- Rust `==` on `f32`, on bit patterns. -/
def f32Eq (a b : Nat) : Bool :=
  !f32IsNaN a && !f32IsNaN b && (a == b || (f32IsZero a && f32IsZero b))

/-! ### Protocol data model (`src/protocol.rs`, `src/serialization.rs`) -/

/-- `pub type EntityId = u32`. -/
abbrev EntityId := Nat

/-- `pub enum FieldValue` from `src/protocol.rs`: a tagged union over null,
bool, fixed-width integers, floats (bit patterns), strings, bytes, arrays and
string-keyed maps. -/
inductive FieldValue : Type where
  | null
  | bool (b : Bool)
  | u8 (n : Nat)
  | u16 (n : Nat)
  | u32 (n : Nat)
  | u64 (n : Nat)
  | i8 (n : Int)
  | i16 (n : Int)
  | i32 (n : Int)
  | i64 (n : Int)
  | f32 (bits : Nat)
  | f64 (bits : Nat)
  | string (s : String)
  | bytes (bs : List Nat)
  | array (xs : List FieldValue)
  | map (m : List (String × FieldValue))

/-- `pub enum ComponentData`: opaque bytes, JSON text, or a structured
field map. -/
inductive ComponentData : Type where
  | binary (bs : List Nat)
  | json (s : String)
  | structured (fields : List (String × FieldValue))

/-- `pub struct SerializedComponent`. -/
structure SerializedComponent : Type where
  id : String
  data : ComponentData

/-- `pub struct SerializedEntity`. -/
structure SerializedEntity : Type where
  id : EntityId
  components : List SerializedComponent

/-- `pub struct WorldSnapshot` (`src/serialization.rs`); `timestamp` is an
`f64` bit pattern. -/
structure WorldSnapshot : Type where
  entities : List SerializedEntity
  timestamp : Nat
  version : String

/-- `pub struct FieldDelta`. -/
structure FieldDelta : Type where
  field_id : String
  old_value : Option FieldValue
  new_value : FieldValue

/-- `pub enum DeltaChange`. -/
inductive DeltaChange : Type where
  | entityAdded (entity_id : EntityId)
  | entityRemoved (entity_id : EntityId)
  | componentAdded (entity_id : EntityId) (component_id : String) (data : ComponentData)
  | componentRemoved (entity_id : EntityId) (component_id : String)
  | componentUpdated (entity_id : EntityId) (component_id : String) (data : ComponentData)
  | fieldsUpdated (entity_id : EntityId) (component_id : String) (fields : List FieldDelta)

/-- `pub struct Delta` (`src/serialization.rs`); both timestamps are `f64`
bit patterns. -/
structure Delta : Type where
  changes : List DeltaChange
  timestamp : Nat
  base_timestamp : Nat

/-! ### Rust `PartialEq` on field values and component data

`FieldValue` and `ComponentData` carry `derive(PartialEq)` in the source.
`fvBeq` replicates it: variant tags must match, floats compare by IEEE `==`,
arrays pointwise, and maps by `HashMap` equality (same length, and every
binding of the left map found with an equal value in the right map). -/

mutual

def fvBeq : FieldValue → FieldValue → Bool
  | .null, .null => true
  | .bool a, .bool b => a == b
  | .u8 a, .u8 b => a == b
  | .u16 a, .u16 b => a == b
  | .u32 a, .u32 b => a == b
  | .u64 a, .u64 b => a == b
  | .i8 a, .i8 b => a == b
  | .i16 a, .i16 b => a == b
  | .i32 a, .i32 b => a == b
  | .i64 a, .i64 b => a == b
  | .f32 a, .f32 b => f32Eq a b
  | .f64 a, .f64 b => f64Eq a b
  | .string a, .string b => a == b
  | .bytes a, .bytes b => a == b
  | .array a, .array b => fvListBeq a b
  | .map a, .map b => a.length == b.length && fvMapSub a b
  | _, _ => false

def fvListBeq : List FieldValue → List FieldValue → Bool
  | [], [] => true
  | x :: xs, y :: ys => fvBeq x y && fvListBeq xs ys
  | _, _ => false

def fvMapSub : List (String × FieldValue) → List (String × FieldValue) → Bool
  | [], _ => true
  | (k, v) :: t, ys =>
      (match alLookup k ys with
       | some w => fvBeq v w
       | none => false) && fvMapSub t ys

end

/-- Rust `==` on `ComponentData` (`derive(PartialEq)`): `Structured` maps use
`HashMap` equality. -/
def dataBeq : ComponentData → ComponentData → Bool
  | .binary a, .binary b => a == b
  | .json a, .json b => a == b
  | .structured a, .structured b => a.length == b.length && fvMapSub a b
  | _, _ => false

/-! ### Literal structural equality on the embedded values

The reconstruction statement needs to say "the receiver holds exactly the
value the producer sent"; `deriving DecidableEq` is unavailable for the nested
inductive, so a structural (bit-level, order-sensitive) equality test is
defined by hand together with its soundness and reflexivity. -/

mutual

def fvEqb : FieldValue → FieldValue → Bool
  | .null, .null => true
  | .bool a, .bool b => a == b
  | .u8 a, .u8 b => a == b
  | .u16 a, .u16 b => a == b
  | .u32 a, .u32 b => a == b
  | .u64 a, .u64 b => a == b
  | .i8 a, .i8 b => a == b
  | .i16 a, .i16 b => a == b
  | .i32 a, .i32 b => a == b
  | .i64 a, .i64 b => a == b
  | .f32 a, .f32 b => a == b
  | .f64 a, .f64 b => a == b
  | .string a, .string b => a == b
  | .bytes a, .bytes b => a == b
  | .array a, .array b => fvListEqb a b
  | .map a, .map b => fvPairListEqb a b
  | _, _ => false

def fvListEqb : List FieldValue → List FieldValue → Bool
  | [], [] => true
  | x :: xs, y :: ys => fvEqb x y && fvListEqb xs ys
  | _, _ => false

def fvPairListEqb : List (String × FieldValue) → List (String × FieldValue) → Bool
  | [], [] => true
  | (k, v) :: t, (k', v') :: t' => k == k' && fvEqb v v' && fvPairListEqb t t'
  | _, _ => false

end

/-- Structural equality on `ComponentData`. -/
def dataEqb : ComponentData → ComponentData → Bool
  | .binary a, .binary b => a == b
  | .json a, .json b => a == b
  | .structured a, .structured b => fvPairListEqb a b
  | _, _ => false

/-- Structural equality of the snapshot structs, elementwise over the entity
and component vectors: "structurally equal snapshots" in the sense of spec §3
(floats by Rust `==`, so a NaN-carrying snapshot is not structurally equal to
anything, as §3's parenthetical demands). -/
def componentBeq (a b : SerializedComponent) : Bool :=
  a.id == b.id && dataBeq a.data b.data

/-- Structural equality of entities: equal ids and pointwise equal component
vectors. -/
def entityBeq (a b : SerializedEntity) : Bool :=
  a.id == b.id && listBeq componentBeq a.components b.components

/-- Structural equality of world snapshots. -/
def snapshotBeq (a b : WorldSnapshot) : Bool :=
  listBeq entityBeq a.entities b.entities && f64Eq a.timestamp b.timestamp
    && a.version == b.version

/-! ### JSON values (external `serde_json` codec)

The `Json`/`Json` branch of `FieldCompressor::compute_field_deltas` parses the
two strings with `serde_json::from_str`. The serializer is an external
collaborator (spec §1 places all codecs out of scope), so the parsed value
shape and the narrowing conversion of `json_to_field_value` are embedded, and
the parser itself is modelled. -/

/-- The shape of `serde_json::Value`; numbers carry serde's internal
`i64`/`u64`/`f64` split, matching the `as_i64`/`as_u64`/`as_f64` probes of
`json_to_field_value`. -/
inductive JsonValue : Type where
  | null
  | bool (b : Bool)
  | numI (i : Int)
  | numU (n : Nat)
  | numF (bits : Nat)
  | string (s : String)
  | array (xs : List JsonValue)
  | obj (m : List (String × JsonValue))

/-- Modelled from the spec: `serde_json::from_str::<serde_json::Value>` is
part of the external codec, which spec §1 scopes out ("the serializer …
interchangeable byte codecs"). It is modelled as never yielding a value, so
the `Json`/`Json` field-diff branch below conservatively falls back to
`ComponentUpdated` (spec §9 already directs consumers that need JSON
round-tripping to `ComponentUpdated`). No claim verified in this development
depends on the `Json` field-diff branch: the compressor claims are settled on
`Structured` data or with the branch unreachable. -/
def serdeJsonFromStr (_s : String) : Option JsonValue :=
  none

/-- `serde_json::Value::as_object`. -/
def JsonValue.asObject : JsonValue → Option (List (String × JsonValue))
  | .obj m => some m
  | _ => none

mutual

/-- `PartialEq` on `serde_json::Value` (external codec; only used inside the
modelled-out `Json` field-diff branch). -/
def jvBeq : JsonValue → JsonValue → Bool
  | .null, .null => true
  | .bool a, .bool b => a == b
  | .numI a, .numI b => a == b
  | .numU a, .numU b => a == b
  | .numF a, .numF b => f64Eq a b
  | .string a, .string b => a == b
  | .array a, .array b => jvListBeq a b
  | .obj a, .obj b => jvObjBeq a b
  | _, _ => false

def jvListBeq : List JsonValue → List JsonValue → Bool
  | [], [] => true
  | x :: xs, y :: ys => jvBeq x y && jvListBeq xs ys
  | _, _ => false

def jvObjBeq : List (String × JsonValue) → List (String × JsonValue) → Bool
  | [], [] => true
  | (k, v) :: t, (k', v') :: t' => k == k' && jvBeq v v' && jvObjBeq t t'
  | _, _ => false

end

mutual

/-- `fn json_to_field_value` (`src/compression.rs`): numbers narrow to
`I64` if exactly signed, else `U64` if exactly unsigned, else `F64`. -/
def jsonToFieldValue : JsonValue → FieldValue
  | .null => .null
  | .bool b => .bool b
  | .numI i => .i64 i
  | .numU n => .u64 n
  | .numF bits => .f64 bits
  | .string s => .string s
  | .array xs => .array (jsonListToFieldValues xs)
  | .obj m => .map (jsonObjToFieldValues m)

def jsonListToFieldValues : List JsonValue → List FieldValue
  | [] => []
  | x :: t => jsonToFieldValue x :: jsonListToFieldValues t

def jsonObjToFieldValues : List (String × JsonValue) → List (String × FieldValue)
  | [] => []
  | (k, v) :: t => (k, jsonToFieldValue v) :: jsonObjToFieldValues t

end

/-! ### The delta compressor (`src/compression.rs`) -/

/-- `pub struct FieldCompressor`. -/
structure FieldCompressor : Type where
  enabled : Bool

/-- `FieldCompressor::new`: field compression defaults to on. -/
def FieldCompressor.new : FieldCompressor := ⟨true⟩

/-- `FieldCompressor::with_enabled`. -/
def FieldCompressor.with_enabled (enabled : Bool) : FieldCompressor := ⟨enabled⟩

/-- `FieldCompressor::is_enabled`. -/
def FieldCompressor.is_enabled (fc : FieldCompressor) : Bool := fc.enabled

/-- `FieldCompressor::compute_field_deltas`: `None` when disabled, when the
two sides have incompatible variants, or when the `Json` payloads do not parse
as objects. For `Structured`/`Structured`, the set-diff of the two field maps
(changed and added keys from `curr`, then removed keys from `prev` with
`new_value = Null`). -/
def FieldCompressor.compute_field_deltas (fc : FieldCompressor)
    (prev curr : SerializedComponent) : Option (List FieldDelta) :=
  if !fc.enabled then none
  else
    match prev.data, curr.data with
    | .structured prev_fields, .structured curr_fields =>
        let changed := curr_fields.filterMap (fun p =>
          match alLookup p.1 prev_fields with
          | some prev_value =>
              if !fvBeq prev_value p.2 then
                some ⟨p.1, some prev_value, p.2⟩
              else none
          | none => some ⟨p.1, none, p.2⟩)
        let removed := (prev_fields.filter
            (fun p => (alLookup p.1 curr_fields).isNone)).map
          (fun p => (⟨p.1, alLookup p.1 prev_fields, .null⟩ : FieldDelta))
        some (changed ++ removed)
    | .json prev_json_str, .json curr_json_str =>
        match serdeJsonFromStr prev_json_str, serdeJsonFromStr curr_json_str with
        | some prev_json, some curr_json =>
            match prev_json.asObject, curr_json.asObject with
            | some prev_obj, some curr_obj =>
                let changed := curr_obj.filterMap (fun p =>
                  match alLookup p.1 prev_obj with
                  | some prev_value =>
                      if !jvBeq prev_value p.2 then
                        some (⟨p.1, some (jsonToFieldValue prev_value),
                          jsonToFieldValue p.2⟩ : FieldDelta)
                      else none
                  | none => some ⟨p.1, none, jsonToFieldValue p.2⟩)
                let removed := (prev_obj.filter
                    (fun p => (alLookup p.1 curr_obj).isNone)).map
                  (fun p => (⟨p.1, (alLookup p.1 prev_obj).map jsonToFieldValue,
                    .null⟩ : FieldDelta))
                some (changed ++ removed)
            | _, _ => none
        | _, _ => none
    | _, _ => none

/-- `pub struct DeltaCompressor`. -/
structure DeltaCompressor : Type where
  previous_snapshot : Option WorldSnapshot
  field_compressor : FieldCompressor

/-- `DeltaCompressor::new`. -/
def DeltaCompressor.new : DeltaCompressor := ⟨none, FieldCompressor.new⟩

/-- `DeltaCompressor::with_field_compression`. -/
def DeltaCompressor.with_field_compression (enable : Bool) : DeltaCompressor :=
  ⟨none, FieldCompressor.with_enabled enable⟩

/-- `DeltaCompressor::components_equal`: ids must match and the payloads must
be structurally equal; a variant mismatch is "changed". -/
def DeltaCompressor.components_equal (_c : DeltaCompressor)
    (a b : SerializedComponent) : Bool :=
  if a.id ≠ b.id then false
  else
    match a.data, b.data with
    | .binary a_data, .binary b_data => a_data == b_data
    | .json a_json, .json b_json => a_json == b_json
    | .structured a_map, .structured b_map => a_map.length == b_map.length && fvMapSub a_map b_map
    | _, _ => false

/-- `DeltaCompressor::create_initial_delta`: every entity emits `EntityAdded`
followed by one `ComponentAdded` per component, in vector order. -/
def DeltaCompressor.create_initial_delta (_c : DeltaCompressor)
    (snapshot : WorldSnapshot) : List DeltaChange :=
  snapshot.entities.flatMap (fun entity =>
    DeltaChange.entityAdded entity.id ::
      entity.components.map (fun component =>
        DeltaChange.componentAdded entity.id component.id component.data))

/-- The loop body of `DeltaCompressor::compute_component_changes` for one
current component `p` keyed by its id: added when absent from `prev`, a
field-level or whole-component update when present but unequal, nothing when
equal. -/
def DeltaCompressor.component_diff_group (c : DeltaCompressor)
    (entity_id : EntityId)
    (prev_components : List (String × SerializedComponent))
    (p : String × SerializedComponent) : List DeltaChange :=
  match alLookup p.1 prev_components with
  | some prev_component =>
      if !c.components_equal prev_component p.2 then
        if c.field_compressor.is_enabled then
          match c.field_compressor.compute_field_deltas prev_component p.2 with
          | some field_deltas =>
              if !field_deltas.isEmpty then
                [DeltaChange.fieldsUpdated entity_id p.1 field_deltas]
              else
                [DeltaChange.componentUpdated entity_id p.1 p.2.data]
          | none => [DeltaChange.componentUpdated entity_id p.1 p.2.data]
        else [DeltaChange.componentUpdated entity_id p.1 p.2.data]
      else []
  | none => [DeltaChange.componentAdded entity_id p.1 p.2.data]

/-- `DeltaCompressor::compute_component_changes`: component diff within a
shared entity, over the two hash-indexed component maps. -/
def DeltaCompressor.compute_component_changes (c : DeltaCompressor)
    (entity_id : EntityId) (prev_entity curr_entity : SerializedEntity) :
    List DeltaChange :=
  let prev_components := indexBy SerializedComponent.id prev_entity.components
  let curr_components := indexBy SerializedComponent.id curr_entity.components
  (curr_components.flatMap (c.component_diff_group entity_id prev_components))
  ++ ((prev_components.filter
      (fun p => (alLookup p.1 curr_components).isNone)).map
    (fun p => DeltaChange.componentRemoved entity_id p.1))

/-- The loop body of `DeltaCompressor::compute_changes` for one current
entity `p` keyed by its id: a component-level diff when the entity was
present before, an `EntityAdded` followed by all its components when new. -/
def DeltaCompressor.entity_diff_group (c : DeltaCompressor)
    (prev_entities : List (EntityId × SerializedEntity))
    (p : EntityId × SerializedEntity) : List DeltaChange :=
  match alLookup p.1 prev_entities with
  | some prev_entity => c.compute_component_changes p.1 prev_entity p.2
  | none =>
      DeltaChange.entityAdded p.1 ::
        p.2.components.map (fun component =>
          DeltaChange.componentAdded p.1 component.id component.data)

/-- `DeltaCompressor::compute_changes`: entity-level diff over the two
hash-indexed entity maps, then removals for entities only in `prev`. -/
def DeltaCompressor.compute_changes (c : DeltaCompressor)
    (prev curr : WorldSnapshot) : List DeltaChange :=
  let prev_entities := indexBy SerializedEntity.id prev.entities
  let curr_entities := indexBy SerializedEntity.id curr.entities
  (curr_entities.flatMap (c.entity_diff_group prev_entities))
  ++ ((prev_entities.filter
      (fun p => (alLookup p.1 curr_entities).isNone)).map
    (fun p => DeltaChange.entityRemoved p.1))

/-- `DeltaCompressor::create_delta`: diff against the stored previous snapshot
(or emit the initial delta), then store the argument as the new previous
snapshot. `base_timestamp` is the previous timestamp, `0.0` on the first call
(the bit pattern of `0.0` is `0`). -/
def DeltaCompressor.create_delta (c : DeltaCompressor)
    (current_snapshot : WorldSnapshot) : Delta × DeltaCompressor :=
  let timestamp := current_snapshot.timestamp
  let base_timestamp :=
    match c.previous_snapshot with
    | some s => s.timestamp
    | none => 0
  let changes :=
    match c.previous_snapshot with
    | some prev => c.compute_changes prev current_snapshot
    | none => c.create_initial_delta current_snapshot
  (⟨changes, timestamp, base_timestamp⟩,
   ⟨some current_snapshot, c.field_compressor⟩)

/-- `DeltaCompressor::reset`: clears the previous snapshot. -/
def DeltaCompressor.reset (c : DeltaCompressor) : DeltaCompressor :=
  ⟨none, c.field_compressor⟩

/-! ### The receiver: applying deltas to a materialized world

Modelled from the spec: the repository ships no delta-application code (only
the producer side is in `src/`); spec §3 fixes the meaning of each
`DeltaChange` variant ("old_value=none means added; new_value=null means
removed") and §8 states reconstruction "starting from the empty world". The
receiver's materialized state is a map `EntityId → (ComponentId → data)`. -/

/-- The receiver's per-entity state: its component map. -/
abbrev EntityState := List (String × ComponentData)

/-- The receiver's materialized world: entity map, empty at the start. -/
abbrev World := List (EntityId × EntityState)

/-- Modelled from the spec: update an entity's component map in place,
leaving the world unchanged when the entity is absent. -/
def worldModify (id : EntityId) (f : EntityState → EntityState) : World → World
  | [] => []
  | (id', es) :: t =>
      if id' = id then (id', f es) :: t else (id', es) :: worldModify id f t

/-- Modelled from the spec: apply one `FieldDelta` to a structured field map;
`new_value = Null` means the field was removed (spec §3), anything else is an
insert-or-replace. -/
def applyFieldDelta (fields : List (String × FieldValue)) (fd : FieldDelta) :
    List (String × FieldValue) :=
  match fd.new_value with
  | .null => alRemove fd.field_id fields
  | v => alInsert fd.field_id v fields

/-- Modelled from the spec: apply a single `DeltaChange` to the world.
`EntityAdded` creates an empty entity (a fresh entity's components follow as
`ComponentAdded` changes, per §4.1's ordering guarantee); component changes
are insert/remove/replace on the entity's component map; `FieldsUpdated`
rewrites the fields of an existing `Structured` component and is a no-op
otherwise (§3 makes a missing target a recoverable error, resolved outside
the applied delta). -/
def applyChange (w : World) : DeltaChange → World
  | .entityAdded entity_id =>
      match alLookup entity_id w with
      | some _ => w
      | none => alInsert entity_id [] w
  | .entityRemoved entity_id => alRemove entity_id w
  | .componentAdded entity_id component_id data =>
      worldModify entity_id (alInsert component_id data) w
  | .componentRemoved entity_id component_id =>
      worldModify entity_id (alRemove component_id) w
  | .componentUpdated entity_id component_id data =>
      worldModify entity_id (alInsert component_id data) w
  | .fieldsUpdated entity_id component_id fds =>
      worldModify entity_id (fun es =>
        match alLookup component_id es with
        | some (.structured fields) =>
            alInsert component_id (.structured (fds.foldl applyFieldDelta fields)) es
        | _ => es) w

/-- Modelled from the spec: apply a whole delta, change by change, in order. -/
def applyDelta (w : World) (d : Delta) : World :=
  d.changes.foldl applyChange w

/-- Modelled from the spec: apply a sequence of deltas in order. -/
def applyDeltas (w : World) (ds : List Delta) : World :=
  ds.foldl applyDelta w

/-- A reconstructed component datum matches the snapshot's datum when it is
the literal value the producer sent, or a value the source's own structural
equality (`derive(PartialEq)`) cannot tell apart from it (the compressor
already declines to emit a change for such values, e.g. `-0.0` vs `+0.0`). -/
def reconData (d c : ComponentData) : Bool :=
  dataEqb d c || dataBeq d c

/-- The reconstructed component map of one entity matches the snapshot
entity's components, up to component iteration order: key-for-key equal
against the hash-indexed component map. -/
def reconComponents (es : EntityState) (comps : List SerializedComponent) : Bool :=
  let idx := indexBy SerializedComponent.id comps
  (es.map Prod.fst ++ idx.map Prod.fst).all (fun cid =>
    match alLookup cid es, alLookup cid idx with
    | none, none => true
    | some d, some comp => reconData d comp.data
    | _, _ => false)

/-- The reconstructed world matches a snapshot up to entity/component
iteration order: the same entity ids are present, and each entity's component
map matches. -/
def worldMatches (w : World) (s : WorldSnapshot) : Bool :=
  let idx := indexBy SerializedEntity.id s.entities
  (w.map Prod.fst ++ idx.map Prod.fst).all (fun id =>
    match alLookup id w, alLookup id idx with
    | none, none => true
    | some es, some entity => reconComponents es entity.components
    | _, _ => false)

/-- The entity a change targets. -/
def changeEntity : DeltaChange → EntityId
  | .entityAdded entity_id => entity_id
  | .entityRemoved entity_id => entity_id
  | .componentAdded entity_id _ _ => entity_id
  | .componentRemoved entity_id _ => entity_id
  | .componentUpdated entity_id _ _ => entity_id
  | .fieldsUpdated entity_id _ _ => entity_id

/-- Is the change a component-level change (acting inside one entity)? -/
def isCompChange : DeltaChange → Bool
  | .componentAdded _ _ _ => true
  | .componentRemoved _ _ => true
  | .componentUpdated _ _ _ => true
  | .fieldsUpdated _ _ _ => true
  | _ => false

/-- The component a component-level change targets (unused tag for entity
changes). -/
def changeComponentId : DeltaChange → String
  | .componentAdded _ component_id _ => component_id
  | .componentRemoved _ component_id => component_id
  | .componentUpdated _ component_id _ => component_id
  | .fieldsUpdated _ component_id _ => component_id
  | _ => ""

/-- The action of a component-level change on one entity's component map
(the inner function `applyChange` passes to `worldModify`). -/
def compAct : DeltaChange → EntityState → EntityState
  | .componentAdded _ component_id data => alInsert component_id data
  | .componentUpdated _ component_id data => alInsert component_id data
  | .componentRemoved _ component_id => alRemove component_id
  | .fieldsUpdated _ component_id fds => fun es =>
      match alLookup component_id es with
      | some (.structured fields) =>
          alInsert component_id (.structured (fds.foldl applyFieldDelta fields)) es
      | _ => es
  | _ => fun es => es

/-- Pointwise form of `reconComponents`: every component id resolves the same
way on the receiver's entity state and on the snapshot entity's hash-indexed
component map, with matching data. -/
def ReconComponentsP (es : EntityState) (comps : List SerializedComponent) : Prop :=
  ∀ cid : String,
    match alLookup cid es, alLookup cid (indexBy SerializedComponent.id comps) with
    | none, none => True
    | some d, some comp => reconData d comp.data = true
    | _, _ => False

/-- Pointwise form of `worldMatches`. -/
def WorldMatchesP (w : World) (s : WorldSnapshot) : Prop :=
  ∀ id : EntityId,
    match alLookup id w, alLookup id (indexBy SerializedEntity.id s.entities) with
    | none, none => True
    | some es, some e => ReconComponentsP es e.components
    | _, _ => False

/-- Well-formedness of producer snapshots, required by spec §3: entity ids
are unique within a snapshot and component ids are unique within an entity
(duplicates are explicitly undefined behavior, §3/§4.1). -/
def wfSnapshot (s : WorldSnapshot) : Prop :=
  (s.entities.map SerializedEntity.id).Nodup ∧
    ∀ e ∈ s.entities, (e.components.map SerializedComponent.id).Nodup

instance (s : WorldSnapshot) : Decidable (wfSnapshot s) := by
  unfold wfSnapshot; infer_instance

/-- Feed a sequence of snapshots to one compressor, collecting the emitted
deltas. -/
def runCompressor (c : DeltaCompressor) : List WorldSnapshot → List Delta
  | [] => []
  | s :: rest =>
      let res := c.create_delta s
      res.1 :: runCompressor res.2 rest

/-! ### Errors (`src/error.rs`)

Only the kinds the verified operations can produce are embedded. -/

/-- `pub enum LinkError`, restricted to the variants the embedded operations
return. -/
inductive LinkError : Type where
  | Transport (msg : String)
  | SchemaMismatch (expected actual : String)
  | SchemaNotFound (id : String)
  | RateLimitExceeded (msg : String)
  | InvalidMessage (msg : String)
  | ConnectionClosed
  | Unknown (msg : String)
deriving DecidableEq

/-! ### The sliding-window rate limiter (`src/rate_limit.rs`)

Time is `Nat` milliseconds. `Instant - Duration` is truncated subtraction
(the source would panic before the process epoch; all verified statements
live in the non-panicking range). The burst window is the source's fixed
100 ms. -/

/-- `pub struct RateLimitConfig`; `window_duration` in milliseconds. -/
structure RateLimitConfig : Type where
  max_messages_per_second : Nat
  max_bytes_per_second : Nat
  burst_size : Nat
  window_duration : Nat
deriving DecidableEq

/-- `RateLimitConfig::default`: 1000 msgs/s, 10 MiB/s, burst 100, 1 s window. -/
def RateLimitConfig.default : RateLimitConfig :=
  ⟨1000, 10 * 1024 * 1024, 100, 1000⟩

/-- `struct MessageRecord`. -/
structure MessageRecord : Type where
  timestamp : Nat
  size : Nat
deriving DecidableEq

/-- `pub struct RateLimiter`; the `VecDeque` histories are lists with the
front (oldest end) at the head. -/
structure RateLimiter : Type where
  config : RateLimitConfig
  message_history : List MessageRecord
  byte_history : List MessageRecord
  total_messages : Nat
  total_bytes : Nat
  total_rejected : Nat
deriving DecidableEq

/-- `RateLimiter::new`. -/
def RateLimiter.new (config : RateLimitConfig) : RateLimiter :=
  ⟨config, [], [], 0, 0, 0⟩

/-- `RateLimiter::cleanup_old_records`: pop records strictly older than
`now - window_duration` from the front of both histories. -/
def RateLimiter.cleanup_old_records (l : RateLimiter) (now : Nat) : RateLimiter :=
  let cutoff := now - l.config.window_duration
  { l with
    message_history := l.message_history.dropWhile (fun r => decide (r.timestamp < cutoff))
    byte_history := l.byte_history.dropWhile (fun r => decide (r.timestamp < cutoff)) }

/-- `RateLimiter::count_messages_in_window`: records with
`timestamp >= now - window_duration`. -/
def RateLimiter.count_messages_in_window (l : RateLimiter) (now : Nat) : Nat :=
  let cutoff := now - l.config.window_duration
  (l.message_history.filter (fun r => decide (cutoff ≤ r.timestamp))).length

/-- `RateLimiter::count_bytes_in_window`. -/
def RateLimiter.count_bytes_in_window (l : RateLimiter) (now : Nat) : Nat :=
  let cutoff := now - l.config.window_duration
  ((l.byte_history.filter (fun r => decide (cutoff ≤ r.timestamp))).map
    MessageRecord.size).sum

/-- `RateLimiter::count_recent_burst`: messages within the fixed 100 ms
burst window. -/
def RateLimiter.count_recent_burst (l : RateLimiter) (now : Nat) : Nat :=
  let cutoff := now - 100
  (l.message_history.filter (fun r => decide (cutoff ≤ r.timestamp))).length

/-- `RateLimiter::record_message`: push the record onto both histories and
bump the admission counters. -/
def RateLimiter.record_message (l : RateLimiter) (timestamp size : Nat) : RateLimiter :=
  { l with
    message_history := l.message_history ++ [⟨timestamp, size⟩]
    byte_history := l.byte_history ++ [⟨timestamp, size⟩]
    total_messages := l.total_messages + 1
    total_bytes := l.total_bytes + size }

/-- `RateLimiter::check_and_record`: evict, then check the message-rate,
byte-rate and burst limits in that order, recording only when all pass. -/
def RateLimiter.check_and_record (l : RateLimiter) (now message_size : Nat) :
    Except LinkError Unit × RateLimiter :=
  let l := l.cleanup_old_records now
  let messages_in_window := l.count_messages_in_window now
  let bytes_in_window := l.count_bytes_in_window now
  if messages_in_window ≥ l.config.max_messages_per_second then
    (.error (.RateLimitExceeded ("Message rate limit exceeded: " ++
        toString l.config.max_messages_per_second ++ " msgs/sec")),
     { l with total_rejected := l.total_rejected + 1 })
  else if bytes_in_window + message_size > l.config.max_bytes_per_second then
    (.error (.RateLimitExceeded ("Byte rate limit exceeded: " ++
        toString l.config.max_bytes_per_second ++ " bytes/sec")),
     { l with total_rejected := l.total_rejected + 1 })
  else
    let burst_count := l.count_recent_burst now
    if burst_count ≥ l.config.burst_size then
      (.error (.RateLimitExceeded ("Burst limit exceeded: " ++
          toString l.config.burst_size ++ " msgs")),
       { l with total_rejected := l.total_rejected + 1 })
    else
      (.ok (), l.record_message now message_size)

/-- `RateLimiter::reset`: clears both histories and nothing else. -/
def RateLimiter.reset (l : RateLimiter) : RateLimiter :=
  { l with message_history := [], byte_history := [] }

/-- The five-step algorithm exactly as the claim words it: (1) evict records
older than the window from both histories; (2) reject if the message count in
the window is at least the message limit; (3) reject if the bytes in the
window plus the incoming size exceed the byte limit; (4) reject if the count
in the last 100 ms is at least the burst size; (5) otherwise append the
record and bump the counters. The first failing check names the error, and a
rejected call appends nothing (only the rejection counter moves). -/
def checkAndRecordSpec (l : RateLimiter) (now message_size : Nat) :
    Except LinkError Unit × RateLimiter :=
  let evicted := l.cleanup_old_records now
  let reject := fun (msg : String) =>
    ((.error (.RateLimitExceeded msg) : Except LinkError Unit),
     { evicted with total_rejected := evicted.total_rejected + 1 })
  if evicted.count_messages_in_window now ≥ evicted.config.max_messages_per_second then
    reject ("Message rate limit exceeded: " ++
      toString evicted.config.max_messages_per_second ++ " msgs/sec")
  else if evicted.count_bytes_in_window now + message_size >
      evicted.config.max_bytes_per_second then
    reject ("Byte rate limit exceeded: " ++
      toString evicted.config.max_bytes_per_second ++ " bytes/sec")
  else if evicted.count_recent_burst now ≥ evicted.config.burst_size then
    reject ("Burst limit exceeded: " ++ toString evicted.config.burst_size ++ " msgs")
  else
    (.ok (), evicted.record_message now message_size)

/-- One step of a rate-limiter usage trace: a `check_and_record` call at some
instant with some size, or a `reset`. -/
inductive RLOp : Type where
  | call (now size : Nat)
  | reset
deriving DecidableEq

/-- Run a usage trace against a rate limiter. -/
def runRLOps (l : RateLimiter) : List RLOp → RateLimiter
  | [] => l
  | .call now size :: rest => runRLOps (l.check_and_record now size).2 rest
  | .reset :: rest => runRLOps l.reset rest

/-- The number of `check_and_record` calls in a trace. -/
def countCalls : List RLOp → Nat
  | [] => 0
  | .call _ _ :: rest => countCalls rest + 1
  | .reset :: rest => countCalls rest

/-- A back-to-back burst: `n` consecutive `check_and_record` calls at the
same instant, stopping at the first rejection; returns whether all of them
were admitted. -/
def runBurst (l : RateLimiter) (now size : Nat) : Nat → Bool × RateLimiter
  | 0 => (true, l)
  | n + 1 =>
      let res := l.check_and_record now size
      match res.1 with
      | .ok _ => runBurst res.2 now size n
      | .error _ => (false, res.2)

/-! ### The schema registry and validator (`src/schema.rs`)

The registry's `RwLock`s serialize access; the embedding is the
single-threaded functional core (a poisoned lock cannot arise here). -/

/-- `pub enum FieldType`. -/
inductive FieldType : Type where
  | null
  | bool
  | u8
  | u16
  | u32
  | u64
  | i8
  | i16
  | i32
  | i64
  | f32
  | f64
  | string
  | bytes
  | array
  | map
deriving DecidableEq

/-- `pub struct FieldSchema`. -/
structure FieldSchema : Type where
  field_id : String
  field_type : FieldType
  optional : Bool
  default_value : Option String
  description : Option String
deriving DecidableEq

/-- `pub struct ComponentSchema`. -/
structure ComponentSchema : Type where
  component_id : String
  version : Nat
  fields : List FieldSchema
  description : Option String
deriving DecidableEq

/-- `pub struct SchemaRegistry`: schema map plus per-component version
history. -/
structure SchemaRegistry : Type where
  schemas : List (String × ComponentSchema)
  version_history : List (String × List Nat)
  current_version : Nat
deriving DecidableEq

/-- `SchemaRegistry::new`. -/
def SchemaRegistry.new : SchemaRegistry := ⟨[], [], 1⟩

/-- `SchemaRegistry::register`: refuse when a schema for the component already
exists with a version that is not strictly older; otherwise append the version
to the component's history and store the schema, replacing any older one. -/
def SchemaRegistry.register (reg : SchemaRegistry) (schema : ComponentSchema) :
    Except LinkError Unit × SchemaRegistry :=
  let component_id := schema.component_id
  let version := schema.version
  let blocked :=
    match alLookup component_id reg.schemas with
    | some existing => decide (existing.version ≥ version)
    | none => false
  if blocked then
    (.error (.Unknown ("Schema version " ++ toString version ++
        " already exists or is newer for component " ++ component_id)),
     reg)
  else
    (.ok (),
     { reg with
       version_history :=
         alInsert component_id
           ((alLookup component_id reg.version_history).getD [] ++ [version])
           reg.version_history
       schemas := alInsert component_id schema reg.schemas })

/-- `SchemaRegistry::get`. -/
def SchemaRegistry.get (reg : SchemaRegistry) (component_id : String) :
    Except LinkError ComponentSchema :=
  match alLookup component_id reg.schemas with
  | some schema => .ok schema
  | none => .error (.SchemaNotFound component_id)

/-- `SchemaRegistry::get_version_history`. -/
def SchemaRegistry.get_version_history (reg : SchemaRegistry)
    (component_id : String) : List Nat :=
  (alLookup component_id reg.version_history).getD []

/-- The field-schema loop of `SchemaValidator::validate_component`: a
required field missing from the presented map fails, a presented field whose
type differs from the declared one fails, anything else moves on. -/
def validateFieldSchemas (component_id : String)
    (fields : List (String × FieldType)) : List FieldSchema → Except LinkError Unit
  | [] => .ok ()
  | field_schema :: rest =>
      if !field_schema.optional && (alLookup field_schema.field_id fields).isNone then
        .error (.InvalidMessage ("Required field '" ++ field_schema.field_id ++
          "' missing in component '" ++ component_id ++ "'"))
      else
        match alLookup field_schema.field_id fields with
        | some field_type =>
            if field_type ≠ field_schema.field_type then
              .error (.InvalidMessage ("Field '" ++ field_schema.field_id ++
                "' has wrong type in component '" ++ component_id ++ "'"))
            else validateFieldSchemas component_id fields rest
        | none => validateFieldSchemas component_id fields rest

/-- `SchemaValidator::validate_component`: look up the schema, then check
every declared field against the presented `FieldId → FieldType` map; fields
not declared in the schema are never examined. -/
def validate_component (registry : SchemaRegistry) (component_id : String)
    (fields : List (String × FieldType)) : Except LinkError Unit :=
  match registry.get component_id with
  | .error e => .error e
  | .ok schema => validateFieldSchemas component_id fields schema.fields

/-! ### Messages and the sync manager (`src/protocol.rs`, `src/sync.rs`) -/

/-- `pub enum MessageType`. -/
inductive MessageType : Type where
  | snapshot
  | delta
  | requestSnapshot
  | ack
  | ping
  | pong
  | schemaSync
  | error
deriving DecidableEq

/-- `pub struct MessageHeader`. The source draws `timestamp` from the wall
clock and `sequence` from a process-global counter; both enter the model as
explicit arguments. -/
structure MessageHeader : Type where
  msg_type : MessageType
  timestamp : Nat
  id : Nat
  sequence : Nat
  schema_version : Nat

/-- `MessageHeader::new`: the correlation id is
`(timestamp_ms << 20) | (sequence & 0xFFFFF)`. -/
def MessageHeader.new (msg_type : MessageType) (schema_version now_ms sequence : Nat) :
    MessageHeader :=
  ⟨msg_type, now_ms, ((now_ms <<< 20) ||| (sequence &&& 0xFFFFF)), sequence,
   schema_version⟩

/-- `pub struct DeltaMetadata`: counters derived by scanning the changes. -/
structure DeltaMetadata : Type where
  change_count : Nat
  entities_added : Nat
  entities_removed : Nat
  components_updated : Nat

/-- `pub struct DeltaPayload`; `base_timestamp` here is `u64` milliseconds. -/
structure DeltaPayload : Type where
  changes : List DeltaChange
  base_timestamp : Nat
  metadata : DeltaMetadata

/-- `pub enum MessagePayload`, restricted to the variants `send_delta` can
produce. -/
inductive MessagePayload : Type where
  | delta (payload : DeltaPayload)
  | ping
  | pong

/-- `pub struct Message`. -/
structure Message : Type where
  header : MessageHeader
  payload : MessagePayload

/-- `Message::delta`: builds the metadata by scanning the change list. -/
def Message.delta (changes : List DeltaChange) (base_timestamp schema_version
    now_ms sequence : Nat) : Message :=
  let change_count := changes.length
  let entities_added := (changes.filter (fun ch =>
    match ch with | .entityAdded _ => true | _ => false)).length
  let entities_removed := (changes.filter (fun ch =>
    match ch with | .entityRemoved _ => true | _ => false)).length
  let components_updated := (changes.filter (fun ch =>
    match ch with
    | .componentUpdated _ _ _ => true
    | .fieldsUpdated _ _ _ => true
    | _ => false)).length
  ⟨MessageHeader.new .delta schema_version now_ms sequence,
   .delta ⟨changes, base_timestamp,
     ⟨change_count, entities_added, entities_removed, components_updated⟩⟩⟩

/-- Modelled from the spec: `(delta.base_timestamp * 1000.0) as u64`, an IEEE
`f64` multiplication and truncating cast on the carried bit pattern. Float
arithmetic is out of the embedding's scope; the function is kept opaque-total,
and no verified claim inspects the converted value. -/
def f64SecsToMillisTrunc (bits : Nat) : Nat :=
  bits

/-- Modelled from the spec §6: the `Transport` the core consumes. `send`
either delivers (appending to `sent`, never silently dropping), fails with a
transport error, or fails as closed; the two failure modes are driven by the
corresponding state flags. -/
structure Transport : Type where
  connected : Bool
  fail_send : Bool
  sent : List Message

/-- Modelled from the spec §6: `Transport::send`. -/
def Transport.send (t : Transport) (message : Message) :
    Except LinkError Unit × Transport :=
  if !t.connected then (.error .ConnectionClosed, t)
  else if t.fail_send then (.error (.Transport "send failed"), t)
  else (.ok (), { t with sent := t.sent ++ [message] })

/-- `pub enum SyncMode`. -/
inductive SyncMode : Type where
  | full
  | delta
  | manual
deriving DecidableEq

/-- `pub struct SyncConfig`, the fields `send_delta` consults. -/
structure SyncConfig : Type where
  mode : SyncMode
  sync_interval : Nat
  enable_rate_limiting : Bool
  rate_limit_config : RateLimitConfig
  enable_field_compression : Bool
  auto_reconnect : Bool
  max_reconnect_attempts : Nat

/-- `pub struct SyncManager`. `seq_counter` models the process-global wire
sequence counter (spec §9: an atomic fetch-add; the claims below concern a
single manager, so it lives in the manager's state). -/
structure SyncManager : Type where
  transport : Transport
  config : SyncConfig
  delta_compressor : DeltaCompressor
  rate_limiter : Option RateLimiter
  schema_registry : SchemaRegistry
  last_sync : Option Nat
  sync_count : Nat
  error_count : Nat
  reconnect_attempts : Nat
  schema_version : Nat
  seq_counter : Nat

/-- `SyncManager::new`. -/
def SyncManager.new (transport : Transport) (config : SyncConfig) : SyncManager :=
  { transport
    config
    delta_compressor := DeltaCompressor.with_field_compression config.enable_field_compression
    rate_limiter :=
      if config.enable_rate_limiting then some (RateLimiter.new config.rate_limit_config)
      else none
    schema_registry := SchemaRegistry.new
    last_sync := none
    sync_count := 0
    error_count := 0
    reconnect_attempts := 0
    schema_version := 1
    seq_counter := 0 }

/-- `SyncManager::send_delta`: refuse when disconnected (only counting
reconnect attempts); compute the delta (this already replaces the stored
previous snapshot); succeed silently on an empty delta; otherwise frame the
message, consult the rate limiter with the fixed 1024-byte estimate, send,
and only then update `last_sync`, `sync_count` and `reconnect_attempts`. -/
def SyncManager.send_delta (m : SyncManager) (now : Nat) (snapshot : WorldSnapshot) :
    Except LinkError Unit × SyncManager :=
  if !m.transport.connected then
    if m.config.auto_reconnect && m.reconnect_attempts < m.config.max_reconnect_attempts then
      (.error .ConnectionClosed, { m with reconnect_attempts := m.reconnect_attempts + 1 })
    else
      (.error .ConnectionClosed, m)
  else
    let res := m.delta_compressor.create_delta snapshot
    let delta := res.1
    let m₁ := { m with delta_compressor := res.2 }
    if delta.changes.isEmpty then
      (.ok (), m₁)
    else
      let base_timestamp := f64SecsToMillisTrunc delta.base_timestamp
      let sequence := m₁.seq_counter + 1
      let message := Message.delta delta.changes base_timestamp m₁.schema_version
        now sequence
      let m₂ := { m₁ with seq_counter := sequence }
      let estimated_size := 1024
      let afterLimiter : Except LinkError Unit × SyncManager :=
        match m₂.rate_limiter with
        | some limiter =>
            let lres := limiter.check_and_record now estimated_size
            (lres.1, { m₂ with rate_limiter := some lres.2 })
        | none => (.ok (), m₂)
      match afterLimiter.1 with
      | .error e => (.error e, afterLimiter.2)
      | .ok _ =>
          let m₃ := afterLimiter.2
          let sres := m₃.transport.send message
          let m₄ := { m₃ with transport := sres.2 }
          match sres.1 with
          | .error e => (.error e, m₄)
          | .ok _ =>
              (.ok (), { m₄ with
                last_sync := some now
                sync_count := m₄.sync_count + 1
                reconnect_attempts := 0 })

/-! ## Theorems

General association-list lemmas first, then the claims in dependency order. -/

theorem alLookup_alInsert_self {κ α : Type} [DecidableEq κ] (k : κ) (v : α)
    (l : List (κ × α)) : alLookup k (alInsert k v l) = some v := by
  induction l with
  | nil => simp [alInsert, alLookup]
  | cons p t ih =>
      obtain ⟨k', v'⟩ := p
      by_cases h : k' = k <;> simp [alInsert, alLookup, h, ih]

theorem alLookup_alInsert_ne {κ α : Type} [DecidableEq κ] {k k' : κ} (v : α)
    (l : List (κ × α)) (h : k' ≠ k) :
    alLookup k' (alInsert k v l) = alLookup k' l := by
  induction l with
  | nil => simp [alInsert, alLookup, Ne.symm h]
  | cons p t ih =>
      obtain ⟨k₀, v₀⟩ := p
      by_cases h₀ : k₀ = k
      · subst h₀
        simp [alInsert, alLookup, Ne.symm h]
      · by_cases h₁ : k₀ = k'
        · subst h₁
          simp [alInsert, alLookup, h₀]
        · simp [alInsert, alLookup, h₀, h₁, ih]

theorem alRemove_cons_self {κ α : Type} [DecidableEq κ] (k : κ) (v : α)
    (t : List (κ × α)) : alRemove k ((k, v) :: t) = alRemove k t := by
  simp [alRemove, List.filter_cons]

theorem alRemove_cons_ne {κ α : Type} [DecidableEq κ] {k k₀ : κ} (v : α)
    (t : List (κ × α)) (h : k₀ ≠ k) :
    alRemove k ((k₀, v) :: t) = (k₀, v) :: alRemove k t := by
  simp [alRemove, List.filter_cons, h]

theorem alLookup_alRemove {κ α : Type} [DecidableEq κ] (k k' : κ)
    (l : List (κ × α)) :
    alLookup k' (alRemove k l) = if k' = k then none else alLookup k' l := by
  induction l with
  | nil => simp [alRemove, alLookup]
  | cons p t ih =>
      obtain ⟨k₀, v₀⟩ := p
      by_cases h₀ : k₀ = k
      · subst h₀
        rw [alRemove_cons_self, ih]
        by_cases hk : k' = k₀
        · simp [hk]
        · simp [hk, alLookup, Ne.symm hk]
      · rw [alRemove_cons_ne v₀ t h₀]
        by_cases h₁ : k₀ = k'
        · subst h₁
          rw [if_neg h₀]
          simp [alLookup]
        · simp [alLookup, h₁, ih]

/-- C3: after `reset()`, `create_delta(S)` produces the same changes list as
the first-ever `create_delta(S)` on a freshly constructed compressor with the
same field-compression setting: both take the `create_initial_delta` path. -/
theorem reset_create_delta_eq_fresh (c : DeltaCompressor) (s : WorldSnapshot) :
    (c.reset.create_delta s).1.changes =
      ((DeltaCompressor.with_field_compression c.field_compressor.is_enabled).create_delta
        s).1.changes := rfl

theorem check_and_record_cases (l : RateLimiter) (now size : Nat) :
    (∃ e, l.check_and_record now size =
      (.error e, { l.cleanup_old_records now with
        total_rejected := (l.cleanup_old_records now).total_rejected + 1 })) ∨
    l.check_and_record now size =
      (.ok (), (l.cleanup_old_records now).record_message now size) := by
  simp only [RateLimiter.check_and_record]
  split
  · exact .inl ⟨_, rfl⟩
  · split
    · exact .inl ⟨_, rfl⟩
    · split
      · exact .inl ⟨_, rfl⟩
      · exact .inr rfl

/-- C4: `check_and_record` implements exactly the claim's five ordered steps
(evict, message-rate check, byte-rate check, burst check, append), the first
failing check naming the error; and a rejected call appends nothing to either
history, moving only the rejection counter. -/
theorem check_and_record_matches_spec (l : RateLimiter) (now size : Nat) :
    l.check_and_record now size = checkAndRecordSpec l now size ∧
    (∀ e, (l.check_and_record now size).1 = .error e →
      (l.check_and_record now size).2.message_history =
        (l.cleanup_old_records now).message_history ∧
      (l.check_and_record now size).2.byte_history =
        (l.cleanup_old_records now).byte_history ∧
      (l.check_and_record now size).2.total_messages = l.total_messages ∧
      (l.check_and_record now size).2.total_bytes = l.total_bytes ∧
      (l.check_and_record now size).2.total_rejected = l.total_rejected + 1) := by
  constructor
  · rfl
  · intro e h
    rcases check_and_record_cases l now size with ⟨e', h2⟩ | h2
    · rw [h2]
      exact ⟨rfl, rfl, rfl, rfl, rfl⟩
    · rw [h2] at h
      simp at h

/-- Witness for C4 at a concrete rejected call: a limiter admitting zero
messages rejects and counts one rejection. -/
theorem check_and_record_matches_spec_witness :
    ((RateLimiter.new ⟨0, 10, 10, 1000⟩).check_and_record 0 1).2.total_rejected =
      (RateLimiter.new ⟨0, 10, 10, 1000⟩).total_rejected + 1 :=
  (((check_and_record_matches_spec (RateLimiter.new ⟨0, 10, 10, 1000⟩) 0 1).2 _
    rfl).2.2.2.2)

theorem check_and_record_counter_step (l : RateLimiter) (now size : Nat) :
    ((l.check_and_record now size).2.total_messages +
        (l.check_and_record now size).2.total_rejected =
      l.total_messages + l.total_rejected + 1) ∧
    l.total_messages ≤ (l.check_and_record now size).2.total_messages ∧
    l.total_rejected ≤ (l.check_and_record now size).2.total_rejected := by
  rcases check_and_record_cases l now size with ⟨e, h⟩ | h <;> rw [h] <;>
    simp [RateLimiter.record_message, RateLimiter.cleanup_old_records] <;> omega

theorem runRLOps_counters (ops : List RLOp) (l : RateLimiter) :
    (runRLOps l ops).total_messages + (runRLOps l ops).total_rejected =
      l.total_messages + l.total_rejected + countCalls ops ∧
    l.total_messages ≤ (runRLOps l ops).total_messages ∧
    l.total_rejected ≤ (runRLOps l ops).total_rejected := by
  induction ops generalizing l with
  | nil => simp [runRLOps, countCalls]
  | cons op rest ih =>
      cases op with
      | call now size =>
          have hstep := check_and_record_counter_step l now size
          have hrest := ih (l.check_and_record now size).2
          simp only [runRLOps, countCalls]
          refine ⟨?_, ?_, ?_⟩
          · omega
          · omega
          · omega
      | reset =>
          have hrest := ih l.reset
          simp only [runRLOps, countCalls, RateLimiter.reset] at hrest ⊢
          exact hrest

/-- C5: over any usage trace, `total_messages + total_rejected` equals the
number of `check_and_record` calls; both counters only ever grow along the
trace, and `reset()` clears neither of them (nor `total_bytes`). -/
theorem rate_limiter_counter_invariant (cfg : RateLimitConfig) (ops : List RLOp) :
    ((runRLOps (RateLimiter.new cfg) ops).total_messages +
        (runRLOps (RateLimiter.new cfg) ops).total_rejected = countCalls ops) ∧
    (∀ (l : RateLimiter) (more : List RLOp),
      l.total_messages ≤ (runRLOps l more).total_messages ∧
      l.total_rejected ≤ (runRLOps l more).total_rejected) ∧
    (∀ l : RateLimiter,
      l.reset.total_messages = l.total_messages ∧
      l.reset.total_bytes = l.total_bytes ∧
      l.reset.total_rejected = l.total_rejected) := by
  refine ⟨?_, ?_, ?_⟩
  · have h := runRLOps_counters ops (RateLimiter.new cfg)
    simpa [RateLimiter.new] using h.1
  · intro l more
    exact (runRLOps_counters more l).2
  · intro l
    exact ⟨rfl, rfl, rfl⟩

/-- C6: with an existing schema at version `old.version` for the component,
`register` succeeds exactly when the new version is strictly larger; success
replaces the stored schema and appends the version to the component's
history, failure changes nothing at all. -/
theorem schema_register_version_gate (reg : SchemaRegistry)
    (old s' : ComponentSchema)
    (h : alLookup s'.component_id reg.schemas = some old) :
    ((reg.register s').1 = .ok () ↔ old.version < s'.version) ∧
    (old.version < s'.version →
      alLookup s'.component_id (reg.register s').2.schemas = some s' ∧
      (reg.register s').2.get_version_history s'.component_id =
        reg.get_version_history s'.component_id ++ [s'.version]) ∧
    (¬ old.version < s'.version → (reg.register s').2 = reg) := by
  by_cases hv : s'.version ≤ old.version
  · have hblock : (decide (old.version ≥ s'.version)) = true := by
      simpa using hv
    refine ⟨?_, ?_, ?_⟩
    · simp [SchemaRegistry.register, h, hblock]
      omega
    · intro hlt
      exact absurd hlt (not_lt.mpr hv)
    · intro _
      simp [SchemaRegistry.register, h, hblock]
  · have hblock : (decide (old.version ≥ s'.version)) = false := by
      simpa using hv
    refine ⟨?_, ?_, ?_⟩
    · simp [SchemaRegistry.register, h, hblock]
      omega
    · intro _
      constructor
      · simp only [SchemaRegistry.register, h, hblock, Bool.false_eq_true,
          if_false]
        exact alLookup_alInsert_self _ _ _
      · simp only [SchemaRegistry.register, h, hblock, Bool.false_eq_true,
          if_false, SchemaRegistry.get_version_history]
        rw [alLookup_alInsert_self]
        rfl
    · intro hcon
      exact absurd (not_le.mp hv) hcon

/-- Witness for C6: registering version 2 over version 1 of "Position"
succeeds. -/
theorem schema_register_version_gate_witness :
    ((SchemaRegistry.new.register ⟨"Position", 1, [], none⟩).2.register
      ⟨"Position", 2, [], none⟩).1 = .ok () := by
  have h := schema_register_version_gate
    (SchemaRegistry.new.register ⟨"Position", 1, [], none⟩).2
    ⟨"Position", 1, [], none⟩ ⟨"Position", 2, [], none⟩ (by rfl)
  exact h.1.mpr (by decide)

theorem validateFieldSchemas_cases (cid : String)
    (fields : List (String × FieldType)) (fss : List FieldSchema) :
    (validateFieldSchemas cid fields fss = .ok () ∨
      ∃ msg, validateFieldSchemas cid fields fss = .error (.InvalidMessage msg)) ∧
    (validateFieldSchemas cid fields fss = .ok () ↔
      ∀ fs ∈ fss,
        (fs.optional = true ∨ (alLookup fs.field_id fields).isSome = true) ∧
        ∀ t, alLookup fs.field_id fields = some t → t = fs.field_type) := by
  induction fss with
  | nil => simp [validateFieldSchemas]
  | cons fs rest ih =>
      cases hlk : alLookup fs.field_id fields with
      | none =>
          by_cases hopt : fs.optional = true
          · have hred : validateFieldSchemas cid fields (fs :: rest) =
                validateFieldSchemas cid fields rest := by
              simp [validateFieldSchemas, hlk, hopt]
            rw [hred]
            refine ⟨ih.1, ?_⟩
            rw [ih.2]
            constructor
            · intro hrest fs' hfs'
              rcases List.mem_cons.mp hfs' with h | h
              · subst h
                exact ⟨Or.inl hopt, fun t' ht' => by rw [hlk] at ht'; cases ht'⟩
              · exact hrest fs' h
            · intro hall fs' hfs'
              exact hall fs' (List.mem_cons_of_mem _ hfs')
          · rw [Bool.not_eq_true] at hopt
            have hred : validateFieldSchemas cid fields (fs :: rest) =
                .error (.InvalidMessage ("Required field '" ++ fs.field_id ++
                  "' missing in component '" ++ cid ++ "'")) := by
              simp [validateFieldSchemas, hlk, hopt]
            rw [hred]
            refine ⟨Or.inr ⟨_, rfl⟩, ?_⟩
            constructor
            · intro hcon
              simp at hcon
            · intro hall
              rcases (hall fs (List.mem_cons_self _ _)).1 with h | h
              · rw [hopt] at h
                cases h
              · rw [hlk] at h
                cases h
      | some t =>
          by_cases hty : t = fs.field_type
          · have hred : validateFieldSchemas cid fields (fs :: rest) =
                validateFieldSchemas cid fields rest := by
              subst hty
              simp [validateFieldSchemas, hlk]
            rw [hred]
            refine ⟨ih.1, ?_⟩
            rw [ih.2]
            constructor
            · intro hrest fs' hfs'
              rcases List.mem_cons.mp hfs' with h | h
              · subst h
                refine ⟨Or.inr (by simp [hlk]), ?_⟩
                intro t' ht'
                rw [hlk] at ht'
                cases ht'
                exact hty
              · exact hrest fs' h
            · intro hall fs' hfs'
              exact hall fs' (List.mem_cons_of_mem _ hfs')
          · have hred : validateFieldSchemas cid fields (fs :: rest) =
                .error (.InvalidMessage ("Field '" ++ fs.field_id ++
                  "' has wrong type in component '" ++ cid ++ "'")) := by
              simp [validateFieldSchemas, hlk, hty]
            rw [hred]
            refine ⟨Or.inr ⟨_, rfl⟩, ?_⟩
            constructor
            · intro hcon
              simp at hcon
            · intro hall
              exact absurd ((hall fs (List.mem_cons_self _ _)).2 t hlk) hty

/-- C7: with the component's schema registered, `validate_component` fails
with `InvalidMessage` exactly when some declared non-optional field is absent
or some declared field is presented with a different type; it succeeds
otherwise, and fields not declared in the schema never cause a failure (the
success criterion quantifies only over declared fields). -/
theorem validate_component_characterization (reg : SchemaRegistry)
    (cid : String) (fields : List (String × FieldType))
    (schema : ComponentSchema) (h : alLookup cid reg.schemas = some schema) :
    (validate_component reg cid fields = .ok () ∨
      ∃ msg, validate_component reg cid fields = .error (.InvalidMessage msg)) ∧
    (validate_component reg cid fields = .ok () ↔
      ∀ fs ∈ schema.fields,
        (fs.optional = true ∨ (alLookup fs.field_id fields).isSome = true) ∧
        ∀ t, alLookup fs.field_id fields = some t → t = fs.field_type) := by
  have : validate_component reg cid fields =
      validateFieldSchemas cid fields schema.fields := by
    simp [validate_component, SchemaRegistry.get, h]
  rw [this]
  exact validateFieldSchemas_cases cid fields schema.fields

/-- Witness for C7: a schema requiring `x : F64` accepts a presentation with
`x : F64` and an undeclared extra field. -/
theorem validate_component_characterization_witness :
    validate_component
      ⟨[("Position", ⟨"Position", 1, [⟨"x", .f64, false, none, none⟩], none⟩)], [], 1⟩
      "Position" [("x", .f64), ("extra", .string)] = .ok () := by
  have h := validate_component_characterization
    ⟨[("Position", ⟨"Position", 1, [⟨"x", .f64, false, none, none⟩], none⟩)], [], 1⟩
    "Position" [("x", .f64), ("extra", .string)]
    ⟨"Position", 1, [⟨"x", .f64, false, none, none⟩], none⟩ (by rfl)
  refine h.2.mpr ?_
  intro fs hfs
  simp only [List.mem_singleton] at hfs
  subst hfs
  refine ⟨Or.inr (by simp [alLookup]), ?_⟩
  intro t ht
  have : FieldType.f64 = t := by simpa [alLookup] using ht
  cases this
  rfl

/-- C8: on a connected manager, when the computed delta has no changes,
`send_delta` succeeds while leaving the transport, the rate limiter,
`sync_count` and `last_sync` untouched (only the compressor's stored
snapshot advances). -/
theorem send_delta_empty_noop (m : SyncManager) (now : Nat) (s : WorldSnapshot)
    (hconn : m.transport.connected = true)
    (hempty : (m.delta_compressor.create_delta s).1.changes = []) :
    (m.send_delta now s).1 = .ok () ∧
    (m.send_delta now s).2.transport = m.transport ∧
    (m.send_delta now s).2.rate_limiter = m.rate_limiter ∧
    (m.send_delta now s).2.sync_count = m.sync_count ∧
    (m.send_delta now s).2.last_sync = m.last_sync := by
  simp [SyncManager.send_delta, hconn, hempty]

theorem listBeq_forall2 {α : Type} (f : α → α → Bool) :
    ∀ (xs ys : List α), listBeq f xs ys = true →
      List.Forall₂ (fun a b => f a b = true) xs ys := by
  intro xs
  induction xs with
  | nil =>
      intro ys h
      cases ys with
      | nil => exact .nil
      | cons y ys => simp [listBeq] at h
  | cons x xs ih =>
      intro ys h
      cases ys with
      | nil => simp [listBeq] at h
      | cons y ys =>
          simp only [listBeq, Bool.and_eq_true] at h
          exact .cons h.1 (ih ys h.2)

theorem forall2_alInsert {κ α : Type} [DecidableEq κ] {R : α → α → Prop}
    {l l' : List (κ × α)} (hrel : List.Forall₂ (PairRel R) l l')
    {k k' : κ} {v v' : α} (hk : k = k') (hv : R v v') :
    List.Forall₂ (PairRel R) (alInsert k v l) (alInsert k' v' l') := by
  subst hk
  induction hrel with
  | nil => exact .cons ⟨rfl, hv⟩ .nil
  | @cons a b l₁ l₂ h₁ h₂ ih =>
      obtain ⟨ka, va⟩ := a
      obtain ⟨kb, vb⟩ := b
      obtain ⟨hkeq, hvrel⟩ := h₁
      simp only at hkeq
      subst hkeq
      by_cases hka : ka = k
      · simp only [alInsert, if_pos hka]
        exact .cons ⟨rfl, hv⟩ h₂
      · simp only [alInsert, if_neg hka]
        exact .cons ⟨rfl, hvrel⟩ ih

theorem forall2_foldl_index {κ α : Type} [DecidableEq κ] {R : α → α → Prop}
    (key : α → κ) (hkey : ∀ a b, R a b → key a = key b) :
    ∀ {xs ys : List α}, List.Forall₂ R xs ys →
      ∀ {acc acc' : List (κ × α)}, List.Forall₂ (PairRel R) acc acc' →
      List.Forall₂ (PairRel R)
        (xs.foldl (fun acc x => alInsert (key x) x acc) acc)
        (ys.foldl (fun acc x => alInsert (key x) x acc) acc') := by
  intro xs ys hxs
  induction hxs with
  | nil =>
      intro acc acc' h
      simpa using h
  | @cons a b l₁ l₂ h₁ h₂ ih =>
      intro acc acc' hacc
      simp only [List.foldl_cons]
      exact ih (forall2_alInsert hacc (hkey a b h₁) h₁)

theorem forall2_indexBy {κ α : Type} [DecidableEq κ] {R : α → α → Prop}
    (key : α → κ) (hkey : ∀ a b, R a b → key a = key b)
    {xs ys : List α} (h : List.Forall₂ R xs ys) :
    List.Forall₂ (PairRel R) (indexBy key xs) (indexBy key ys) :=
  forall2_foldl_index key hkey h .nil

theorem alLookup_forall2 {κ α : Type} [DecidableEq κ] {R : α → α → Prop}
    {l l' : List (κ × α)} (h : List.Forall₂ (PairRel R) l l') (k : κ) :
    (alLookup k l = none ∧ alLookup k l' = none) ∨
    ∃ v v', alLookup k l = some v ∧ alLookup k l' = some v' ∧ R v v' := by
  induction h with
  | nil => exact .inl ⟨rfl, rfl⟩
  | @cons a b l₁ l₂ h₁ h₂ ih =>
      obtain ⟨ka, va⟩ := a
      obtain ⟨kb, vb⟩ := b
      obtain ⟨hkeq, hvrel⟩ := h₁
      simp only at hkeq
      subst hkeq
      by_cases hk : ka = k
      · exact .inr ⟨va, vb, by simp [alLookup, hk], by simp [alLookup, hk], hvrel⟩
      · simpa [alLookup, hk] using ih

theorem mem_keys_alInsert {κ α : Type} [DecidableEq κ] {l : List (κ × α)}
    {k k' : κ} {v : α} (h : k' ∈ (alInsert k v l).map Prod.fst) :
    k' ∈ l.map Prod.fst ∨ k' = k := by
  induction l with
  | nil =>
      simp [alInsert] at h
      exact .inr h
  | cons p t ih =>
      obtain ⟨k₀, v₀⟩ := p
      by_cases h₀ : k₀ = k
      · simp only [alInsert, if_pos h₀] at h
        rcases List.mem_cons.mp h with h | h
        · exact .inr h
        · exact .inl (by simp; exact .inr (by simpa using h))
      · simp only [alInsert, if_neg h₀, List.map_cons, List.mem_cons] at h
        rcases h with h | h
        · exact .inl (by simp [h])
        · rcases ih h with h' | h'
          · exact .inl (by simp; exact .inr (by simpa using h'))
          · exact .inr h'

theorem alInsert_keys_nodup {κ α : Type} [DecidableEq κ] {l : List (κ × α)}
    (k : κ) (v : α) (h : (l.map Prod.fst).Nodup) :
    ((alInsert k v l).map Prod.fst).Nodup := by
  induction l with
  | nil => simp [alInsert]
  | cons p t ih =>
      obtain ⟨k₀, v₀⟩ := p
      rw [List.map_cons, List.nodup_cons] at h
      by_cases h₀ : k₀ = k
      · have hstep : alInsert k v ((k₀, v₀) :: t) = (k, v) :: t := by
          simp [alInsert, h₀]
        rw [hstep, List.map_cons, List.nodup_cons]
        exact ⟨h₀ ▸ h.1, h.2⟩
      · have hstep : alInsert k v ((k₀, v₀) :: t) = (k₀, v₀) :: alInsert k v t := by
          simp [alInsert, h₀]
        rw [hstep, List.map_cons, List.nodup_cons]
        refine ⟨?_, ih h.2⟩
        intro hcon
        rcases mem_keys_alInsert hcon with h' | h'
        · exact h.1 h'
        · exact h₀ h'

theorem foldl_index_keys_nodup {κ α : Type} [DecidableEq κ] (key : α → κ) :
    ∀ (xs : List α) (acc : List (κ × α)), (acc.map Prod.fst).Nodup →
      ((xs.foldl (fun acc x => alInsert (key x) x acc) acc).map Prod.fst).Nodup := by
  intro xs
  induction xs with
  | nil => intro acc h; simpa using h
  | cons x t ih =>
      intro acc h
      exact ih _ (alInsert_keys_nodup (key x) x h)

theorem indexBy_keys_nodup {κ α : Type} [DecidableEq κ] (key : α → κ)
    (xs : List α) : ((indexBy key xs).map Prod.fst).Nodup :=
  foldl_index_keys_nodup key xs [] (by simp)

theorem alLookup_of_mem_nodup {κ α : Type} [DecidableEq κ]
    {l : List (κ × α)} {k : κ} {v : α}
    (hnd : (l.map Prod.fst).Nodup) (hm : (k, v) ∈ l) : alLookup k l = some v := by
  induction l with
  | nil => cases hm
  | cons p t ih =>
      obtain ⟨k₀, v₀⟩ := p
      rw [List.map_cons, List.nodup_cons] at hnd
      rcases List.mem_cons.mp hm with h | h
      · cases h
        simp [alLookup]
      · have hk : k ∈ t.map Prod.fst := by
          simpa using List.mem_map_of_mem Prod.fst h
        have hne : k₀ ≠ k := fun hcon => hnd.1 (hcon ▸ hk)
        simp only [alLookup, if_neg hne]
        exact ih hnd.2 h

theorem componentBeq_id {a b : SerializedComponent}
    (h : componentBeq a b = true) : a.id = b.id := by
  simp only [componentBeq, Bool.and_eq_true] at h
  exact eq_of_beq h.1

theorem componentBeq_data {a b : SerializedComponent}
    (h : componentBeq a b = true) : dataBeq a.data b.data = true := by
  simp only [componentBeq, Bool.and_eq_true] at h
  exact h.2

theorem entityBeq_id {a b : SerializedEntity}
    (h : entityBeq a b = true) : a.id = b.id := by
  simp only [entityBeq, Bool.and_eq_true] at h
  exact eq_of_beq h.1

theorem entityBeq_components {a b : SerializedEntity}
    (h : entityBeq a b = true) :
    listBeq componentBeq a.components b.components = true := by
  simp only [entityBeq, Bool.and_eq_true] at h
  exact h.2

theorem components_equal_of_componentBeq (c : DeltaCompressor)
    {a b : SerializedComponent} (h : componentBeq a b = true) :
    c.components_equal a b = true := by
  have hid := componentBeq_id h
  have hdata := componentBeq_data h
  simp only [DeltaCompressor.components_equal]
  rw [if_neg (by simp [hid])]
  cases ha : a.data <;> cases hb : b.data <;>
    simp only [dataBeq, ha, hb] at hdata <;> simp [hdata]

theorem compute_component_changes_self (c : DeltaCompressor) (id : EntityId)
    {pe ce : SerializedEntity} (h : entityBeq pe ce = true) :
    c.compute_component_changes id pe ce = [] := by
  have hrel := listBeq_forall2 componentBeq pe.components ce.components
    (entityBeq_components h)
  have hidx := forall2_indexBy SerializedComponent.id
    (fun a b hab => componentBeq_id hab) hrel
  have hnodC := indexBy_keys_nodup SerializedComponent.id ce.components
  have hnodP := indexBy_keys_nodup SerializedComponent.id pe.components
  simp only [DeltaCompressor.compute_component_changes,
    DeltaCompressor.component_diff_group]
  rw [List.append_eq_nil]
  constructor
  · rw [List.flatMap_eq_nil_iff]
    intro p hp
    obtain ⟨cid, cc⟩ := p
    have hlk_cur : alLookup cid (indexBy SerializedComponent.id ce.components) =
        some cc := alLookup_of_mem_nodup hnodC hp
    rcases alLookup_forall2 hidx cid with ⟨_, hn'⟩ | ⟨pc, cc', hp1, hp2, hrel2⟩
    · rw [hlk_cur] at hn'
      cases hn'
    · rw [hlk_cur] at hp2
      cases hp2
      simp only [DeltaCompressor.component_diff_group]
      rw [hp1]
      have heq := components_equal_of_componentBeq c hrel2
      simp [heq]
  · rw [List.map_eq_nil_iff, List.filter_eq_nil_iff]
    intro p hp
    obtain ⟨cid, pc⟩ := p
    rcases alLookup_forall2 hidx cid with ⟨hn, _⟩ | ⟨v, v', _, h2, _⟩
    · have hlk_prev : alLookup cid (indexBy SerializedComponent.id pe.components) =
          some pc := alLookup_of_mem_nodup hnodP hp
      rw [hlk_prev] at hn
      cases hn
    · simp [h2]

theorem compute_changes_structural_empty (c : DeltaCompressor)
    {s s' : WorldSnapshot} (h : listBeq entityBeq s.entities s'.entities = true) :
    c.compute_changes s s' = [] := by
  have hrel := listBeq_forall2 entityBeq s.entities s'.entities h
  have hidx := forall2_indexBy SerializedEntity.id
    (fun a b hab => entityBeq_id hab) hrel
  have hnodC := indexBy_keys_nodup SerializedEntity.id s'.entities
  have hnodP := indexBy_keys_nodup SerializedEntity.id s.entities
  simp only [DeltaCompressor.compute_changes,
    DeltaCompressor.entity_diff_group]
  rw [List.append_eq_nil]
  constructor
  · rw [List.flatMap_eq_nil_iff]
    intro p hp
    obtain ⟨id, ce⟩ := p
    have hlk_cur : alLookup id (indexBy SerializedEntity.id s'.entities) =
        some ce := alLookup_of_mem_nodup hnodC hp
    rcases alLookup_forall2 hidx id with ⟨_, hn'⟩ | ⟨pe, ce', hp1, hp2, hrel2⟩
    · rw [hlk_cur] at hn'
      cases hn'
    · rw [hlk_cur] at hp2
      cases hp2
      simp only [DeltaCompressor.entity_diff_group]
      rw [hp1]
      exact compute_component_changes_self c id hrel2
  · rw [List.map_eq_nil_iff, List.filter_eq_nil_iff]
    intro p hp
    obtain ⟨id, pe⟩ := p
    rcases alLookup_forall2 hidx id with ⟨hn, _⟩ | ⟨v, v', _, h2, _⟩
    · have hlk_prev : alLookup id (indexBy SerializedEntity.id s.entities) =
          some pe := alLookup_of_mem_nodup hnodP hp
      rw [hlk_prev] at hn
      cases hn
    · simp [h2]

/-- C2: feeding a snapshot and then a structurally equal snapshot to the same
compressor yields a second delta with an empty changes list, whatever the
compressor's prior state or field-compression setting. -/
theorem create_delta_twice_empty (c : DeltaCompressor) (s s' : WorldSnapshot)
    (h : snapshotBeq s s' = true) :
    ((c.create_delta s).2.create_delta s').1.changes = [] := by
  have hents : listBeq entityBeq s.entities s'.entities = true := by
    simp only [snapshotBeq, Bool.and_eq_true] at h
    exact h.1.1
  exact compute_changes_structural_empty _ hents

/-- Witness for C2: a one-entity structured snapshot fed twice produces an
empty second delta. -/
theorem create_delta_twice_empty_witness :
    ((DeltaCompressor.new.create_delta
        ⟨[⟨1, [⟨"c", .structured [("f", .bool true)]⟩]⟩], 0, "1"⟩).2.create_delta
      ⟨[⟨1, [⟨"c", .structured [("f", .bool true)]⟩]⟩], 0, "1"⟩).1.changes = [] :=
  create_delta_twice_empty DeltaCompressor.new
    ⟨[⟨1, [⟨"c", .structured [("f", .bool true)]⟩]⟩], 0, "1"⟩
    ⟨[⟨1, [⟨"c", .structured [("f", .bool true)]⟩]⟩], 0, "1"⟩ (by rfl)

/-- C9 as stated is false at the exact window boundary: the eviction and the
window count keep records with `timestamp >= now - window_duration`, so when
exactly `window_duration` (here 5 ms) has elapsed since the only previous
call, that record still counts and a burst of `max_messages_per_second = 1`
calls is rejected by the message-rate check even though the byte and burst
limits (10^6 bytes, burst 1000) amply permit it. -/
theorem sliding_window_boundary_counterexample :
    ((RateLimiter.new ⟨1, 1000000, 1000, 5⟩).check_and_record 0 50).1 = .ok () ∧
    (runBurst ((RateLimiter.new ⟨1, 1000000, 1000, 5⟩).check_and_record 0 50).2
      5 50 1).1 = false :=
  ⟨rfl, rfl⟩

theorem cleanup_stale (l : RateLimiter) (now : Nat)
    (hm : ∀ r ∈ l.message_history, r.timestamp + l.config.window_duration < now)
    (hb : ∀ r ∈ l.byte_history, r.timestamp + l.config.window_duration < now) :
    l.cleanup_old_records now = { l with message_history := [], byte_history := [] } := by
  have h1 : l.message_history.dropWhile
      (fun r => decide (r.timestamp < now - l.config.window_duration)) = [] := by
    rw [List.dropWhile_eq_nil_iff]
    intro x hx
    simpa using Nat.lt_sub_of_add_lt (hm x hx)
  have h2 : l.byte_history.dropWhile
      (fun r => decide (r.timestamp < now - l.config.window_duration)) = [] := by
    rw [List.dropWhile_eq_nil_iff]
    intro x hx
    simpa using Nat.lt_sub_of_add_lt (hb x hx)
  simp only [RateLimiter.cleanup_old_records, h1, h2]

theorem filter_window_replicate (j now size cutoff : Nat) (h : cutoff ≤ now) :
    (List.replicate j (⟨now, size⟩ : MessageRecord)).filter
      (fun r => decide (cutoff ≤ r.timestamp)) = List.replicate j ⟨now, size⟩ := by
  rw [List.filter_eq_self]
  intro a ha
  rw [List.eq_of_mem_replicate ha]
  simpa using h

theorem check_replicate_step (cfg : RateLimitConfig) (now size j tm tb tr : Nat)
    (hj : j < cfg.max_messages_per_second)
    (hbytes : (j + 1) * size ≤ cfg.max_bytes_per_second)
    (hburst : j < cfg.burst_size) :
    RateLimiter.check_and_record
      ⟨cfg, List.replicate j ⟨now, size⟩, List.replicate j ⟨now, size⟩, tm, tb, tr⟩
      now size =
    (.ok (), ⟨cfg, List.replicate (j + 1) ⟨now, size⟩,
      List.replicate (j + 1) ⟨now, size⟩, tm + 1, tb + size, tr⟩) := by
  have hpred : ∀ w : Nat,
      (decide ((⟨now, size⟩ : MessageRecord).timestamp < now - w)) = false := by
    intro w
    simp only [decide_eq_false_iff_not]
    omega
  have hdrop : ∀ w : Nat, (List.replicate j (⟨now, size⟩ : MessageRecord)).dropWhile
      (fun r => decide (r.timestamp < now - w)) = List.replicate j ⟨now, size⟩ := by
    intro w
    cases j with
    | zero => rfl
    | succ n => simp [List.replicate_succ, List.dropWhile_cons, hpred w]
  have hclean : RateLimiter.cleanup_old_records
      ⟨cfg, List.replicate j ⟨now, size⟩, List.replicate j ⟨now, size⟩, tm, tb, tr⟩ now =
      ⟨cfg, List.replicate j ⟨now, size⟩, List.replicate j ⟨now, size⟩, tm, tb, tr⟩ := by
    simp only [RateLimiter.cleanup_old_records, hdrop]
  have hmiw : RateLimiter.count_messages_in_window
      ⟨cfg, List.replicate j ⟨now, size⟩, List.replicate j ⟨now, size⟩, tm, tb, tr⟩ now = j := by
    simp only [RateLimiter.count_messages_in_window,
      filter_window_replicate _ _ _ _ (Nat.sub_le _ _), List.length_replicate]
  have hbiw : RateLimiter.count_bytes_in_window
      ⟨cfg, List.replicate j ⟨now, size⟩, List.replicate j ⟨now, size⟩, tm, tb, tr⟩ now =
      j * size := by
    simp only [RateLimiter.count_bytes_in_window,
      filter_window_replicate _ _ _ _ (Nat.sub_le _ _), List.map_replicate,
      List.sum_replicate, smul_eq_mul]
  have hbur : RateLimiter.count_recent_burst
      ⟨cfg, List.replicate j ⟨now, size⟩, List.replicate j ⟨now, size⟩, tm, tb, tr⟩ now = j := by
    simp only [RateLimiter.count_recent_burst,
      filter_window_replicate _ _ _ _ (Nat.sub_le _ _), List.length_replicate]
  simp only [RateLimiter.check_and_record, hclean, hmiw, hbiw, hbur]
  rw [if_neg (by omega), if_neg (by nlinarith), if_neg (by omega)]
  simp only [RateLimiter.record_message]
  rw [← List.replicate_succ']

theorem check_stale_first (l : RateLimiter) (now size : Nat)
    (hm : ∀ r ∈ l.message_history, r.timestamp + l.config.window_duration < now)
    (hb : ∀ r ∈ l.byte_history, r.timestamp + l.config.window_duration < now)
    (hmax : 0 < l.config.max_messages_per_second)
    (hbytes : size ≤ l.config.max_bytes_per_second)
    (hburst : 0 < l.config.burst_size) :
    l.check_and_record now size =
      (.ok (), ⟨l.config, [⟨now, size⟩], [⟨now, size⟩],
        l.total_messages + 1, l.total_bytes + size, l.total_rejected⟩) := by
  have hclean := cleanup_stale l now hm hb
  have hmiw : RateLimiter.count_messages_in_window
      { l with message_history := [], byte_history := [] } now = 0 := rfl
  have hbiw : RateLimiter.count_bytes_in_window
      { l with message_history := [], byte_history := [] } now = 0 := rfl
  have hbur : RateLimiter.count_recent_burst
      { l with message_history := [], byte_history := [] } now = 0 := rfl
  simp only [RateLimiter.check_and_record, hclean, hmiw, hbiw, hbur]
  rw [if_neg (by omega), if_neg (by omega), if_neg (by omega)]
  simp only [RateLimiter.record_message]
  rfl

theorem runBurst_replicate (cfg : RateLimitConfig) (now size : Nat) :
    ∀ (n j tm tb tr : Nat), j + n ≤ cfg.max_messages_per_second →
      cfg.max_messages_per_second * size ≤ cfg.max_bytes_per_second →
      cfg.max_messages_per_second ≤ cfg.burst_size →
      (runBurst ⟨cfg, List.replicate j ⟨now, size⟩, List.replicate j ⟨now, size⟩,
        tm, tb, tr⟩ now size n).1 = true := by
  intro n
  induction n with
  | zero => intro j tm tb tr _ _ _; rfl
  | succ k ih =>
      intro j tm tb tr hle hbytes hburst
      have hj : j < cfg.max_messages_per_second := by omega
      have hjs : (j + 1) * size ≤ cfg.max_bytes_per_second := by
        have h1 : (j + 1) * size ≤ cfg.max_messages_per_second * size :=
          Nat.mul_le_mul_right size (by omega)
        exact le_trans h1 hbytes
      have hstep := check_replicate_step cfg now size j tm tb tr hj hjs (by omega)
      simp only [runBurst, hstep]
      exact ih (j + 1) _ _ _ (by omega) hbytes hburst

/-- C9 (amended): after STRICTLY more than `window_duration` has elapsed
since every recorded call (at exactly `window_duration`, the boundary record
still counts — see the counterexample), a burst of `max_messages_per_second`
back-to-back calls is admitted again, provided the byte budget covers the
whole burst and the burst size is at least the message limit. -/
theorem sliding_window_boundary_amended (l : RateLimiter) (now size : Nat)
    (hm : ∀ r ∈ l.message_history, r.timestamp + l.config.window_duration < now)
    (hb : ∀ r ∈ l.byte_history, r.timestamp + l.config.window_duration < now)
    (hbytes : l.config.max_messages_per_second * size ≤ l.config.max_bytes_per_second)
    (hburst : l.config.max_messages_per_second ≤ l.config.burst_size) :
    (runBurst l now size l.config.max_messages_per_second).1 = true := by
  cases hmax : l.config.max_messages_per_second with
  | zero => rfl
  | succ k =>
      have hsz : size ≤ l.config.max_bytes_per_second := by
        have h1 : size ≤ l.config.max_messages_per_second * size := by
          rw [hmax]
          nlinarith
        exact le_trans h1 hbytes
      have hfirst := check_stale_first l now size hm hb (by omega) hsz (by omega)
      simp only [runBurst, hfirst]
      exact runBurst_replicate l.config now size k 1 _ _ _ (by omega) hbytes hburst

/-- Witness for C9 (amended): one admitted call at time 0, then a full
2-message burst at time 6 (window 5, strictly elapsed) is admitted. -/
theorem sliding_window_boundary_amended_witness :
    (runBurst ((RateLimiter.new ⟨2, 1000000, 1000, 5⟩).check_and_record 0 50).2
      6 50 2).1 = true := by
  have h := sliding_window_boundary_amended
    ((RateLimiter.new ⟨2, 1000000, 1000, 5⟩).check_and_record 0 50).2
    6 50 (by intro r hr; simp [RateLimiter.check_and_record, RateLimiter.new,
      RateLimiter.cleanup_old_records, RateLimiter.count_messages_in_window,
      RateLimiter.count_bytes_in_window, RateLimiter.count_recent_burst,
      RateLimiter.record_message] at hr; subst hr; decide)
    (by intro r hr; simp [RateLimiter.check_and_record, RateLimiter.new,
      RateLimiter.cleanup_old_records, RateLimiter.count_messages_in_window,
      RateLimiter.count_bytes_in_window, RateLimiter.count_recent_burst,
      RateLimiter.record_message] at hr; subst hr; decide)
    (by decide) (by decide)
  exact h

theorem transport_send_error_state (t : Transport) (msg : Message)
    (e : LinkError) (h : (t.send msg).1 = .error e) : (t.send msg).2 = t := by
  by_cases hc : t.connected
  · by_cases hf : t.fail_send
    · simp [Transport.send, hc, hf]
    · simp [Transport.send, hc, hf] at h
  · simp [Transport.send, hc]

theorem send_delta_with_empty_delta (m : SyncManager) (now : Nat)
    (s : WorldSnapshot) (hconn : m.transport.connected = true)
    (hempty : (m.delta_compressor.create_delta s).1.changes = []) :
    m.send_delta now s =
      (.ok (), { m with delta_compressor := (m.delta_compressor.create_delta s).2 }) := by
  simp [SyncManager.send_delta, hconn, hempty]

theorem send_delta_cases (m : SyncManager) (now : Nat) (s : WorldSnapshot)
    (hconn : m.transport.connected = true) :
    (m.send_delta now s).1 = .ok () ∨
    ((∃ e, (m.send_delta now s).1 = .error e) ∧
      (m.send_delta now s).2.delta_compressor = (m.delta_compressor.create_delta s).2 ∧
      (m.send_delta now s).2.sync_count = m.sync_count ∧
      (m.send_delta now s).2.last_sync = m.last_sync ∧
      (m.send_delta now s).2.transport = m.transport) := by
  simp only [SyncManager.send_delta, hconn, Bool.not_true, Bool.false_eq_true,
    if_false]
  split
  · exact .inl rfl
  · cases hrl : m.rate_limiter with
    | some limiter =>
        cases hcr : (limiter.check_and_record now 1024).1 with
        | error e =>
            right
            simp only [hcr]
            exact ⟨⟨e, by trivial⟩, by trivial, by trivial, by trivial, by trivial⟩
        | ok u =>
            cases u
            simp only [hcr]
            split
            · rename_i e heq
              right
              refine ⟨⟨e, rfl⟩, ?_, ?_, ?_, ?_⟩ <;>
                simp [transport_send_error_state _ _ _ heq]
            · exact .inl rfl
    | none =>
        dsimp only
        split
        · rename_i e heq
          right
          refine ⟨⟨e, rfl⟩, ?_, ?_, ?_, ?_⟩ <;>
            simp [transport_send_error_state _ _ _ heq]
        · exact .inl rfl

/-- C10: on a connected manager, a failing `send_delta` (rate-limit rejection
or transport error) has already stored the argument snapshot as the
compressor's previous snapshot, leaves `sync_count`, `last_sync` and the
transport's sent log unchanged, and the failed delta's changes are lost: a
later `send_delta` with a structurally equal snapshot succeeds without
handing anything to the transport (the diff is now empty), so the failed
changes are never re-emitted. -/
theorem send_delta_failure_non_atomic (m : SyncManager) (now : Nat)
    (s : WorldSnapshot) (e : LinkError)
    (hconn : m.transport.connected = true)
    (hfail : (m.send_delta now s).1 = .error e) :
    (m.send_delta now s).2.delta_compressor.previous_snapshot = some s ∧
    (m.send_delta now s).2.sync_count = m.sync_count ∧
    (m.send_delta now s).2.last_sync = m.last_sync ∧
    (m.send_delta now s).2.transport.sent = m.transport.sent ∧
    (∀ (now' : Nat) (s' : WorldSnapshot), snapshotBeq s s' = true →
      (((m.send_delta now s).2.send_delta now' s').1 = .ok () ∧
        ((m.send_delta now s).2.send_delta now' s').2.transport.sent =
          (m.send_delta now s).2.transport.sent)) := by
  rcases send_delta_cases m now s hconn with hok | ⟨_, hdc, hsc, hls, htr⟩
  · rw [hok] at hfail
    cases hfail
  · refine ⟨by rw [hdc]; rfl, hsc, hls, by rw [htr], ?_⟩
    intro now' s' hbeq
    have hents : listBeq entityBeq s.entities s'.entities = true := by
      simp only [snapshotBeq, Bool.and_eq_true] at hbeq
      exact hbeq.1.1
    have hcon' : (m.send_delta now s).2.transport.connected = true := by
      rw [htr]
      exact hconn
    have hempty' : ((m.send_delta now s).2.delta_compressor.create_delta s').1.changes
        = [] := by
      rw [hdc]
      exact compute_changes_structural_empty _ hents
    rw [send_delta_with_empty_delta _ now' s' hcon' hempty']
    exact ⟨rfl, rfl⟩

/-- Witness for C10: a manager whose limiter admits zero messages fails a
non-empty `send_delta` and keeps the snapshot stored. -/
theorem send_delta_failure_non_atomic_witness :
    ((SyncManager.new ⟨true, false, []⟩
        ⟨.delta, 100, true, ⟨0, 10, 10, 1000⟩, true, false, 3⟩).send_delta 0
      ⟨[⟨1, [⟨"c", .structured [("f", .bool true)]⟩]⟩], 0, "1"⟩).2.delta_compressor.previous_snapshot =
      some ⟨[⟨1, [⟨"c", .structured [("f", .bool true)]⟩]⟩], 0, "1"⟩ :=
  (send_delta_failure_non_atomic
    (SyncManager.new ⟨true, false, []⟩
      ⟨.delta, 100, true, ⟨0, 10, 10, 1000⟩, true, false, 3⟩) 0
    ⟨[⟨1, [⟨"c", .structured [("f", .bool true)]⟩]⟩], 0, "1"⟩
    (.RateLimitExceeded "Message rate limit exceeded: 0 msgs/sec") rfl rfl).1

theorem alLookup_eq_none_iff {κ α : Type} [DecidableEq κ] (k : κ)
    (l : List (κ × α)) : alLookup k l = none ↔ k ∉ l.map Prod.fst := by
  induction l with
  | nil => simp [alLookup]
  | cons p t ih =>
      obtain ⟨k₀, v₀⟩ := p
      by_cases hk : k₀ = k
      · subst hk
        simp [alLookup]
      · simp [alLookup, hk, ih, Ne.symm hk]

theorem alLookup_mem {κ α : Type} [DecidableEq κ] {k : κ} {v : α}
    {l : List (κ × α)} (h : alLookup k l = some v) : (k, v) ∈ l := by
  induction l with
  | nil => cases h
  | cons p t ih =>
      obtain ⟨k₀, v₀⟩ := p
      by_cases hk : k₀ = k
      · subst hk
        simp only [alLookup, if_pos rfl] at h
        cases h
        exact List.mem_cons_self _ _
      · simp only [alLookup, if_neg hk] at h
        exact List.mem_cons_of_mem _ (ih h)

theorem fvMapSub_mem {ys zs : List (String × FieldValue)}
    (h : fvMapSub ys zs = true) {k : String} {w : FieldValue}
    (hm : (k, w) ∈ ys) : ∃ u, alLookup k zs = some u ∧ fvBeq w u = true := by
  induction ys with
  | nil => cases hm
  | cons p t ih =>
      obtain ⟨k₀, v₀⟩ := p
      simp only [fvMapSub, Bool.and_eq_true] at h
      rcases List.mem_cons.mp hm with heq | hmem
      · cases heq
        cases hlz : alLookup k zs with
        | none => rw [hlz] at h; exact absurd h.1 (by simp)
        | some u =>
            rw [hlz] at h
            exact ⟨u, rfl, h.1⟩
      · exact ih h.2 hmem

theorem f64Eq_trans {a b c : Nat} (h1 : f64Eq a b = true)
    (h2 : f64Eq b c = true) : f64Eq a c = true := by
  simp only [f64Eq, Bool.and_eq_true, Bool.or_eq_true] at h1 h2 ⊢
  obtain ⟨⟨hna, hnb⟩, hab⟩ := h1
  obtain ⟨⟨_, hnc⟩, hbc⟩ := h2
  refine ⟨⟨hna, hnc⟩, ?_⟩
  rcases hab with hab | ⟨hza, hzb⟩
  · rcases hbc with hbc | ⟨hzb, hzc⟩
    · left
      rw [Nat.beq_eq_true_eq] at hab ⊢
      rw [hab]
      rwa [Nat.beq_eq_true_eq] at hbc
    · right
      refine ⟨?_, hzc⟩
      rw [Nat.beq_eq_true_eq] at hab
      rwa [hab]
  · rcases hbc with hbc | ⟨_, hzc⟩
    · right
      refine ⟨hza, ?_⟩
      rw [Nat.beq_eq_true_eq] at hbc
      rwa [← hbc]
    · exact .inr ⟨hza, hzc⟩

theorem f32Eq_trans {a b c : Nat} (h1 : f32Eq a b = true)
    (h2 : f32Eq b c = true) : f32Eq a c = true := by
  simp only [f32Eq, Bool.and_eq_true, Bool.or_eq_true] at h1 h2 ⊢
  obtain ⟨⟨hna, hnb⟩, hab⟩ := h1
  obtain ⟨⟨_, hnc⟩, hbc⟩ := h2
  refine ⟨⟨hna, hnc⟩, ?_⟩
  rcases hab with hab | ⟨hza, hzb⟩
  · rcases hbc with hbc | ⟨hzb, hzc⟩
    · left
      rw [Nat.beq_eq_true_eq] at hab ⊢
      rw [hab]
      rwa [Nat.beq_eq_true_eq] at hbc
    · right
      refine ⟨?_, hzc⟩
      rw [Nat.beq_eq_true_eq] at hab
      rwa [hab]
  · rcases hbc with hbc | ⟨_, hzc⟩
    · right
      refine ⟨hza, ?_⟩
      rw [Nat.beq_eq_true_eq] at hbc
      rwa [← hbc]
    · exact .inr ⟨hza, hzc⟩

set_option maxHeartbeats 2000000

mutual

theorem fvBeq_trans : ∀ (a b c : FieldValue), fvBeq a b = true →
    fvBeq b c = true → fvBeq a c = true
  | .null, b, c, h1, h2 => by
      cases b <;> simp only [fvBeq, Bool.false_eq_true] at h1
      cases c <;> simp only [fvBeq, Bool.false_eq_true] at h2 ⊢
  | .bool x, b, c, h1, h2 => by
      cases b <;> simp only [fvBeq, Bool.false_eq_true] at h1
      cases c <;> simp only [fvBeq, Bool.false_eq_true] at h2 ⊢
      all_goals (rw [eq_of_beq h1]; exact h2)
  | .u8 x, b, c, h1, h2 => by
      cases b <;> simp only [fvBeq, Bool.false_eq_true] at h1
      cases c <;> simp only [fvBeq, Bool.false_eq_true] at h2 ⊢
      all_goals (rw [eq_of_beq h1]; exact h2)
  | .u16 x, b, c, h1, h2 => by
      cases b <;> simp only [fvBeq, Bool.false_eq_true] at h1
      cases c <;> simp only [fvBeq, Bool.false_eq_true] at h2 ⊢
      all_goals (rw [eq_of_beq h1]; exact h2)
  | .u32 x, b, c, h1, h2 => by
      cases b <;> simp only [fvBeq, Bool.false_eq_true] at h1
      cases c <;> simp only [fvBeq, Bool.false_eq_true] at h2 ⊢
      all_goals (rw [eq_of_beq h1]; exact h2)
  | .u64 x, b, c, h1, h2 => by
      cases b <;> simp only [fvBeq, Bool.false_eq_true] at h1
      cases c <;> simp only [fvBeq, Bool.false_eq_true] at h2 ⊢
      all_goals (rw [eq_of_beq h1]; exact h2)
  | .i8 x, b, c, h1, h2 => by
      cases b <;> simp only [fvBeq, Bool.false_eq_true] at h1
      cases c <;> simp only [fvBeq, Bool.false_eq_true] at h2 ⊢
      all_goals (rw [eq_of_beq h1]; exact h2)
  | .i16 x, b, c, h1, h2 => by
      cases b <;> simp only [fvBeq, Bool.false_eq_true] at h1
      cases c <;> simp only [fvBeq, Bool.false_eq_true] at h2 ⊢
      all_goals (rw [eq_of_beq h1]; exact h2)
  | .i32 x, b, c, h1, h2 => by
      cases b <;> simp only [fvBeq, Bool.false_eq_true] at h1
      cases c <;> simp only [fvBeq, Bool.false_eq_true] at h2 ⊢
      all_goals (rw [eq_of_beq h1]; exact h2)
  | .i64 x, b, c, h1, h2 => by
      cases b <;> simp only [fvBeq, Bool.false_eq_true] at h1
      cases c <;> simp only [fvBeq, Bool.false_eq_true] at h2 ⊢
      all_goals (rw [eq_of_beq h1]; exact h2)
  | .f32 x, b, c, h1, h2 => by
      cases b <;> simp only [fvBeq, Bool.false_eq_true] at h1
      cases c <;> simp only [fvBeq, Bool.false_eq_true] at h2 ⊢
      all_goals exact f32Eq_trans h1 h2
  | .f64 x, b, c, h1, h2 => by
      cases b <;> simp only [fvBeq, Bool.false_eq_true] at h1
      cases c <;> simp only [fvBeq, Bool.false_eq_true] at h2 ⊢
      all_goals exact f64Eq_trans h1 h2
  | .string x, b, c, h1, h2 => by
      cases b <;> simp only [fvBeq, Bool.false_eq_true] at h1
      cases c <;> simp only [fvBeq, Bool.false_eq_true] at h2 ⊢
      all_goals (rw [eq_of_beq h1]; exact h2)
  | .bytes x, b, c, h1, h2 => by
      cases b <;> simp only [fvBeq, Bool.false_eq_true] at h1
      cases c <;> simp only [fvBeq, Bool.false_eq_true] at h2 ⊢
      all_goals (rw [eq_of_beq h1]; exact h2)
  | .array xs, b, c, h1, h2 => by
      cases b <;> simp only [fvBeq, Bool.false_eq_true] at h1
      cases c <;> simp only [fvBeq, Bool.false_eq_true] at h2 ⊢
      all_goals exact fvListBeq_trans xs _ _ h1 h2
  | .map m₁, b, c, h1, h2 => by
      cases b <;> simp only [fvBeq, Bool.false_eq_true] at h1
      cases c <;> simp only [fvBeq, Bool.false_eq_true] at h2 ⊢
      all_goals (
        rw [Bool.and_eq_true] at h1 h2 ⊢
        refine ⟨?_, fvMapSub_trans m₁ _ _ h1.2 h2.2⟩
        rw [Nat.beq_eq_true_eq] at h1 h2 ⊢
        omega)
termination_by a _ _ _ _ => sizeOf a

theorem fvListBeq_trans : ∀ (xs ys zs : List FieldValue),
    fvListBeq xs ys = true → fvListBeq ys zs = true →
    fvListBeq xs zs = true
  | [], ys, zs, h1, h2 => by
      cases ys <;> simp only [fvListBeq, Bool.false_eq_true] at h1
      cases zs <;> simp only [fvListBeq, Bool.false_eq_true] at h2 ⊢
  | x :: xt, ys, zs, h1, h2 => by
      cases ys <;> simp only [fvListBeq, Bool.false_eq_true] at h1
      cases zs <;> simp only [fvListBeq, Bool.false_eq_true] at h2 ⊢
      all_goals (
        rw [Bool.and_eq_true] at h1 h2 ⊢
        exact ⟨fvBeq_trans x _ _ h1.1 h2.1, fvListBeq_trans xt _ _ h1.2 h2.2⟩)
termination_by xs _ _ _ _ => sizeOf xs

theorem fvMapSub_trans : ∀ (xs ys zs : List (String × FieldValue)),
    fvMapSub xs ys = true → fvMapSub ys zs = true → fvMapSub xs zs = true
  | [], _, _, _, _ => rfl
  | (k, v) :: t, ys, zs, h1, h2 => by
      simp only [fvMapSub, Bool.and_eq_true] at h1 ⊢
      refine ⟨?_, fvMapSub_trans t ys zs h1.2 h2⟩
      cases hly : alLookup k ys with
      | none =>
          rw [hly] at h1
          exact absurd h1.1 (by simp)
      | some w =>
          rw [hly] at h1
          obtain ⟨u, hlz, hwu⟩ := fvMapSub_mem h2 (alLookup_mem hly)
          rw [hlz]
          exact fvBeq_trans v w u h1.1 hwu
termination_by xs _ _ _ _ => sizeOf xs

end

set_option maxHeartbeats 200000

theorem dataBeq_trans {a b c : ComponentData} (h1 : dataBeq a b = true)
    (h2 : dataBeq b c = true) : dataBeq a c = true := by
  cases a <;> cases b <;> simp only [dataBeq, Bool.false_eq_true] at h1 <;>
    cases c <;> simp only [dataBeq, Bool.false_eq_true] at h2 ⊢
  case binary.binary.binary x y z => rw [eq_of_beq h1]; exact h2
  case json.json.json x y z => rw [eq_of_beq h1]; exact h2
  case structured.structured.structured m₁ m₂ m₃ =>
      rw [Bool.and_eq_true] at h1 h2 ⊢
      refine ⟨?_, fvMapSub_trans m₁ m₂ m₃ h1.2 h2.2⟩
      rw [Nat.beq_eq_true_eq] at h1 h2 ⊢
      omega

set_option maxHeartbeats 2000000

mutual

theorem fvEqb_eq : ∀ (a b : FieldValue), fvEqb a b = true → a = b
  | .null, b, h => by
      cases b <;> simp only [fvEqb, Bool.false_eq_true] at h
      rfl
  | .bool x, b, h => by
      cases b <;> simp only [fvEqb, Bool.false_eq_true] at h
      rw [eq_of_beq h]
  | .u8 x, b, h => by
      cases b <;> simp only [fvEqb, Bool.false_eq_true] at h
      rw [eq_of_beq h]
  | .u16 x, b, h => by
      cases b <;> simp only [fvEqb, Bool.false_eq_true] at h
      rw [eq_of_beq h]
  | .u32 x, b, h => by
      cases b <;> simp only [fvEqb, Bool.false_eq_true] at h
      rw [eq_of_beq h]
  | .u64 x, b, h => by
      cases b <;> simp only [fvEqb, Bool.false_eq_true] at h
      rw [eq_of_beq h]
  | .i8 x, b, h => by
      cases b <;> simp only [fvEqb, Bool.false_eq_true] at h
      rw [eq_of_beq h]
  | .i16 x, b, h => by
      cases b <;> simp only [fvEqb, Bool.false_eq_true] at h
      rw [eq_of_beq h]
  | .i32 x, b, h => by
      cases b <;> simp only [fvEqb, Bool.false_eq_true] at h
      rw [eq_of_beq h]
  | .i64 x, b, h => by
      cases b <;> simp only [fvEqb, Bool.false_eq_true] at h
      rw [eq_of_beq h]
  | .f32 x, b, h => by
      cases b <;> simp only [fvEqb, Bool.false_eq_true] at h
      rw [eq_of_beq h]
  | .f64 x, b, h => by
      cases b <;> simp only [fvEqb, Bool.false_eq_true] at h
      rw [eq_of_beq h]
  | .string x, b, h => by
      cases b <;> simp only [fvEqb, Bool.false_eq_true] at h
      rw [eq_of_beq h]
  | .bytes x, b, h => by
      cases b <;> simp only [fvEqb, Bool.false_eq_true] at h
      rw [eq_of_beq h]
  | .array xs, b, h => by
      cases b <;> simp only [fvEqb, Bool.false_eq_true] at h
      rw [fvListEqb_eq xs _ h]
  | .map m, b, h => by
      cases b <;> simp only [fvEqb, Bool.false_eq_true] at h
      rw [fvPairListEqb_eq m _ h]
termination_by a _ _ => sizeOf a

theorem fvListEqb_eq : ∀ (xs ys : List FieldValue),
    fvListEqb xs ys = true → xs = ys
  | [], [], _ => rfl
  | [], _ :: _, h => by simp only [fvListEqb, Bool.false_eq_true] at h
  | _ :: _, [], h => by simp only [fvListEqb, Bool.false_eq_true] at h
  | x :: xt, y :: yt, h => by
      simp only [fvListEqb, Bool.and_eq_true] at h
      rw [fvEqb_eq x y h.1, fvListEqb_eq xt yt h.2]
termination_by xs _ _ => sizeOf xs

theorem fvPairListEqb_eq : ∀ (xs ys : List (String × FieldValue)),
    fvPairListEqb xs ys = true → xs = ys
  | [], [], _ => rfl
  | [], (_, _) :: _, h => by simp only [fvPairListEqb, Bool.false_eq_true] at h
  | (_, _) :: _, [], h => by simp only [fvPairListEqb, Bool.false_eq_true] at h
  | (k, v) :: xt, (k', v') :: yt, h => by
      simp only [fvPairListEqb, Bool.and_eq_true] at h
      rw [eq_of_beq h.1.1, fvEqb_eq v v' h.1.2, fvPairListEqb_eq xt yt h.2]
termination_by xs _ _ => sizeOf xs

end

mutual

theorem fvEqb_refl : ∀ a : FieldValue, fvEqb a a = true
  | .null => rfl
  | .bool x => by simp [fvEqb]
  | .u8 x => by simp [fvEqb]
  | .u16 x => by simp [fvEqb]
  | .u32 x => by simp [fvEqb]
  | .u64 x => by simp [fvEqb]
  | .i8 x => by simp [fvEqb]
  | .i16 x => by simp [fvEqb]
  | .i32 x => by simp [fvEqb]
  | .i64 x => by simp [fvEqb]
  | .f32 x => by simp [fvEqb]
  | .f64 x => by simp [fvEqb]
  | .string x => by simp [fvEqb]
  | .bytes x => by simp [fvEqb]
  | .array xs => by
      simp only [fvEqb]
      exact fvListEqb_refl xs
  | .map m => by
      simp only [fvEqb]
      exact fvPairListEqb_refl m
termination_by a => sizeOf a

theorem fvListEqb_refl : ∀ xs : List FieldValue, fvListEqb xs xs = true
  | [] => rfl
  | x :: t => by
      simp only [fvListEqb, Bool.and_eq_true]
      exact ⟨fvEqb_refl x, fvListEqb_refl t⟩
termination_by xs => sizeOf xs

theorem fvPairListEqb_refl : ∀ m : List (String × FieldValue),
    fvPairListEqb m m = true
  | [] => rfl
  | (k, v) :: t => by
      simp only [fvPairListEqb, Bool.and_eq_true]
      exact ⟨⟨by simp, fvEqb_refl v⟩, fvPairListEqb_refl t⟩
termination_by m => sizeOf m

end

set_option maxHeartbeats 200000

theorem dataEqb_eq {a b : ComponentData} (h : dataEqb a b = true) : a = b := by
  cases a <;> cases b <;> simp only [dataEqb, Bool.false_eq_true] at h
  case binary.binary x y => rw [eq_of_beq h]
  case json.json x y => rw [eq_of_beq h]
  case structured.structured m₁ m₂ => rw [fvPairListEqb_eq m₁ m₂ h]

theorem dataEqb_refl (a : ComponentData) : dataEqb a a = true := by
  cases a <;> simp only [dataEqb]
  case binary x => simp
  case json x => simp
  case structured m => exact fvPairListEqb_refl m

theorem reconData_self (d : ComponentData) : reconData d d = true := by
  simp only [reconData, Bool.or_eq_true]
  exact .inl (dataEqb_refl d)

theorem reconData_trans_beq {d p q : ComponentData}
    (h1 : reconData d p = true) (h2 : dataBeq p q = true) :
    reconData d q = true := by
  simp only [reconData, Bool.or_eq_true] at h1 ⊢
  rcases h1 with h | h
  · right
    rw [dataEqb_eq h]
    exact h2
  · exact .inr (dataBeq_trans h h2)

theorem alLookup_worldModify (id id' : EntityId) (f : EntityState → EntityState)
    (w : World) :
    alLookup id' (worldModify id f w) =
      if id' = id then (alLookup id w).map f else alLookup id' w := by
  induction w with
  | nil => by_cases h : id' = id <;> simp [worldModify, alLookup, h]
  | cons p t ih =>
      obtain ⟨k, es⟩ := p
      by_cases hk : k = id
      · subst hk
        have hw : worldModify k f ((k, es) :: t) = (k, f es) :: t := by
          simp [worldModify]
        rw [hw]
        by_cases h' : id' = k
        · subst h'
          simp [alLookup]
        · have h2 : ¬ k = id' := fun hcon => h' hcon.symm
          simp only [alLookup, if_neg h2, if_neg h']
      · have hw : worldModify id f ((k, es) :: t) = (k, es) :: worldModify id f t := by
          simp [worldModify, hk]
        rw [hw]
        by_cases h2 : k = id'
        · subst h2
          simp [alLookup, hk]
        · simp only [alLookup, if_neg h2, if_neg hk]
          exact ih

theorem alLookup_applyChange_ne (w : World) (ch : DeltaChange) (id0 : EntityId)
    (h : changeEntity ch ≠ id0) :
    alLookup id0 (applyChange w ch) = alLookup id0 w := by
  cases ch with
  | entityAdded i =>
      simp only [changeEntity] at h
      simp only [applyChange]
      cases alLookup i w with
      | some _ => rfl
      | none => exact alLookup_alInsert_ne _ _ (Ne.symm h)
  | entityRemoved i =>
      simp only [changeEntity] at h
      simp only [applyChange]
      rw [alLookup_alRemove, if_neg (Ne.symm h)]
  | componentAdded i cid d =>
      simp only [changeEntity] at h
      simp only [applyChange]
      rw [alLookup_worldModify, if_neg (Ne.symm h)]
  | componentRemoved i cid =>
      simp only [changeEntity] at h
      simp only [applyChange]
      rw [alLookup_worldModify, if_neg (Ne.symm h)]
  | componentUpdated i cid d =>
      simp only [changeEntity] at h
      simp only [applyChange]
      rw [alLookup_worldModify, if_neg (Ne.symm h)]
  | fieldsUpdated i cid fds =>
      simp only [changeEntity] at h
      simp only [applyChange]
      rw [alLookup_worldModify, if_neg (Ne.symm h)]

theorem foldl_applyChange_ne :
    ∀ (chs : List DeltaChange) (w : World) (id0 : EntityId),
      (∀ ch ∈ chs, changeEntity ch ≠ id0) →
      alLookup id0 (chs.foldl applyChange w) = alLookup id0 w := by
  intro chs
  induction chs with
  | nil => intro w id0 _; rfl
  | cons ch t ih =>
      intro w id0 hall
      rw [List.foldl_cons, ih _ _ (fun c hc => hall c (List.mem_cons_of_mem _ hc)),
        alLookup_applyChange_ne _ _ _ (hall ch (List.mem_cons_self _ _))]

theorem applyChange_comp (w : World) (ch : DeltaChange)
    (h : isCompChange ch = true) :
    applyChange w ch = worldModify (changeEntity ch) (compAct ch) w := by
  cases ch <;> simp only [isCompChange, Bool.false_eq_true] at h <;> rfl

theorem foldl_applyChange_comp_group :
    ∀ (chs : List DeltaChange) (i : EntityId),
      (∀ ch ∈ chs, isCompChange ch = true ∧ changeEntity ch = i) →
      ∀ (w : World) (id0 : EntityId),
        alLookup id0 (chs.foldl applyChange w) =
          if id0 = i then
            (alLookup i w).map (fun es => chs.foldl (fun es ch => compAct ch es) es)
          else alLookup id0 w := by
  intro chs
  induction chs with
  | nil =>
      intro i _ w id0
      by_cases h : id0 = i
      · subst h
        simp
      · simp [h]
  | cons ch t ih =>
      intro i hall w id0
      obtain ⟨hcomp, hent⟩ := hall ch (List.mem_cons_self _ _)
      rw [List.foldl_cons, applyChange_comp w ch hcomp, hent,
        ih i (fun c hc => hall c (List.mem_cons_of_mem _ hc))]
      by_cases h : id0 = i
      · subst h
        simp [alLookup_worldModify, Option.map_map]
        rfl
      · simp [h, alLookup_worldModify]

theorem compAct_lookup_ne (ch : DeltaChange) (es : EntityState) (cid : String)
    (h : changeComponentId ch ≠ cid) :
    alLookup cid (compAct ch es) = alLookup cid es := by
  cases ch with
  | componentAdded i k d =>
      simp only [changeComponentId] at h
      exact alLookup_alInsert_ne _ _ (Ne.symm h)
  | componentUpdated i k d =>
      simp only [changeComponentId] at h
      exact alLookup_alInsert_ne _ _ (Ne.symm h)
  | componentRemoved i k =>
      simp only [changeComponentId] at h
      simp only [compAct]
      rw [alLookup_alRemove, if_neg (Ne.symm h)]
  | fieldsUpdated i k fds =>
      simp only [changeComponentId] at h
      simp only [compAct]
      cases alLookup k es with
      | none => rfl
      | some d =>
          cases d with
          | structured fields => exact alLookup_alInsert_ne _ _ (Ne.symm h)
          | binary bs => rfl
          | json s => rfl
  | entityAdded i => rfl
  | entityRemoved i => rfl

theorem foldl_compAct_ne :
    ∀ (chs : List DeltaChange) (es : EntityState) (cid : String),
      (∀ ch ∈ chs, changeComponentId ch ≠ cid) →
      alLookup cid (chs.foldl (fun es ch => compAct ch es) es) = alLookup cid es := by
  intro chs
  induction chs with
  | nil => intro es cid _; rfl
  | cons ch t ih =>
      intro es cid hall
      rw [List.foldl_cons, ih _ _ (fun c hc => hall c (List.mem_cons_of_mem _ hc)),
        compAct_lookup_ne _ _ _ (hall ch (List.mem_cons_self _ _))]

theorem compAct_lookup_congr (ch : DeltaChange) (es es' : EntityState)
    (h : alLookup (changeComponentId ch) es = alLookup (changeComponentId ch) es') :
    alLookup (changeComponentId ch) (compAct ch es) =
      alLookup (changeComponentId ch) (compAct ch es') := by
  cases ch with
  | componentAdded i k d =>
      simp only [compAct, changeComponentId]
      rw [alLookup_alInsert_self, alLookup_alInsert_self]
  | componentUpdated i k d =>
      simp only [compAct, changeComponentId]
      rw [alLookup_alInsert_self, alLookup_alInsert_self]
  | componentRemoved i k =>
      simp only [compAct, changeComponentId]
      rw [alLookup_alRemove, alLookup_alRemove, if_pos rfl, if_pos rfl]
  | fieldsUpdated i k fds =>
      simp only [compAct, changeComponentId] at h ⊢
      rw [← h]
      cases alLookup k es with
      | none => exact h
      | some d =>
          cases d with
          | structured fields =>
              rw [alLookup_alInsert_self, alLookup_alInsert_self]
          | binary bs => exact h
          | json s => exact h
  | entityAdded i => exact h
  | entityRemoved i => exact h

theorem foldl_compAct_congr :
    ∀ (chs : List DeltaChange) (cid : String),
      (∀ ch ∈ chs, changeComponentId ch = cid) →
      ∀ (es es' : EntityState), alLookup cid es = alLookup cid es' →
      alLookup cid (chs.foldl (fun es ch => compAct ch es) es) =
        alLookup cid (chs.foldl (fun es ch => compAct ch es) es') := by
  intro chs
  induction chs with
  | nil => intro cid _ es es' h; exact h
  | cons ch t ih =>
      intro cid hall es es' h
      have hk := hall ch (List.mem_cons_self _ _)
      rw [List.foldl_cons, List.foldl_cons]
      refine ih cid (fun c hc => hall c (List.mem_cons_of_mem _ hc)) _ _ ?_
      subst hk
      exact compAct_lookup_congr ch es es' h

theorem foldl_alInsert_lookup {κ α : Type} [DecidableEq κ] (key : α → κ) :
    ∀ (xs : List α) (acc : List (κ × α)) (k : κ),
      alLookup k (xs.foldl (fun acc x => alInsert (key x) x acc) acc) =
        match xs.reverse.find? (fun x => decide (key x = k)) with
        | some x => some x
        | none => alLookup k acc := by
  intro xs
  induction xs with
  | nil => intro acc k; rfl
  | cons x t ih =>
      intro acc k
      rw [List.foldl_cons, ih, List.reverse_cons, List.find?_append]
      cases hf : t.reverse.find? (fun x => decide (key x = k)) with
      | some y => simp [hf]
      | none =>
          by_cases hk : key x = k
          · simp [hf, hk, alLookup_alInsert_self]
          · simp [hf, hk, alLookup_alInsert_ne _ _ (fun hcon => hk hcon.symm)]

theorem indexBy_lookup {κ α : Type} [DecidableEq κ] (key : α → κ) (xs : List α)
    (k : κ) :
    alLookup k (indexBy key xs) =
      xs.reverse.find? (fun x => decide (key x = k)) := by
  rw [indexBy, foldl_alInsert_lookup]
  cases xs.reverse.find? (fun x => decide (key x = k)) <;> rfl

theorem foldl_componentAdds_lookup (i : EntityId) :
    ∀ (comps : List SerializedComponent) (es : EntityState) (cid : String),
      alLookup cid ((comps.map (fun comp =>
          DeltaChange.componentAdded i comp.id comp.data)).foldl
        (fun es ch => compAct ch es) es) =
        match comps.reverse.find? (fun comp => decide (comp.id = cid)) with
        | some comp => some comp.data
        | none => alLookup cid es := by
  intro comps
  induction comps with
  | nil => intro es cid; rfl
  | cons comp t ih =>
      intro es cid
      rw [List.map_cons, List.foldl_cons, ih, List.reverse_cons, List.find?_append]
      cases hf : t.reverse.find? (fun comp => decide (comp.id = cid)) with
      | some y => simp [hf]
      | none =>
          by_cases hk : comp.id = cid
          · simp only [hf, compAct]
            simp [hk, alLookup_alInsert_self]
          · simp only [hf, compAct]
            simp [hk, alLookup_alInsert_ne _ _ (fun hcon => hk hcon.symm)]

theorem foldl_compRemovals_lookup (i : EntityId) :
    ∀ (ps : List (String × SerializedComponent)) (es : EntityState) (cid : String),
      alLookup cid ((ps.map (fun p => DeltaChange.componentRemoved i p.1)).foldl
        (fun es ch => compAct ch es) es) =
        if cid ∈ ps.map Prod.fst then none else alLookup cid es := by
  intro ps
  induction ps with
  | nil => intro es cid; simp
  | cons p t ih =>
      intro es cid
      rw [List.map_cons, List.foldl_cons, ih]
      by_cases hmem : cid ∈ t.map Prod.fst
      · simp [hmem]
      · by_cases hk : cid = p.1
        · subst hk
          simp only [compAct]
          rw [if_neg hmem, alLookup_alRemove, if_pos rfl]
          simp
        · simp only [compAct]
          rw [if_neg hmem, alLookup_alRemove, if_neg hk]
          rw [if_neg (by simp [hmem, hk])]

theorem foldl_entityRemovals_lookup :
    ∀ (ps : List (EntityId × SerializedEntity)) (w : World) (id0 : EntityId),
      alLookup id0 ((ps.map (fun p => DeltaChange.entityRemoved p.1)).foldl
        applyChange w) =
        if id0 ∈ ps.map Prod.fst then none else alLookup id0 w := by
  intro ps
  induction ps with
  | nil => intro w id0; simp
  | cons p t ih =>
      intro w id0
      rw [List.map_cons, List.foldl_cons, ih]
      by_cases hmem : id0 ∈ t.map Prod.fst
      · simp [hmem]
      · by_cases hk : id0 = p.1
        · subst hk
          simp only [applyChange]
          rw [if_neg hmem, alLookup_alRemove, if_pos rfl]
          simp
        · simp only [applyChange]
          rw [if_neg hmem, alLookup_alRemove, if_neg hk]
          rw [if_neg (by simp [hmem, hk])]

theorem foldl_compAct_flatMap (g : (String × SerializedComponent) → List DeltaChange)
    (hg : ∀ p, ∀ ch ∈ g p, changeComponentId ch = p.1) :
    ∀ (ps : List (String × SerializedComponent)) (es : EntityState) (cid : String),
      (ps.map Prod.fst).Nodup →
      alLookup cid ((ps.flatMap g).foldl (fun es ch => compAct ch es) es) =
        match alLookup cid ps with
        | some cc => alLookup cid ((g (cid, cc)).foldl (fun es ch => compAct ch es) es)
        | none => alLookup cid es := by
  intro ps
  induction ps with
  | nil => intro es cid _; rfl
  | cons p t ih =>
      intro es cid hnod
      obtain ⟨k, cc⟩ := p
      rw [List.map_cons, List.nodup_cons] at hnod
      rw [List.flatMap_cons, List.foldl_append, ih _ _ hnod.2]
      by_cases hk : k = cid
      · subst hk
        have hnone : alLookup k t = (none : Option SerializedComponent) := by
          rw [alLookup_eq_none_iff]
          exact hnod.1
        have hcons : alLookup k ((k, cc) :: t) = some cc := by simp [alLookup]
        simp only [hnone, hcons]
      · have hcons : alLookup cid ((k, cc) :: t) = alLookup cid t := by
          simp [alLookup, hk]
        rw [hcons]
        have hes : alLookup cid ((g (k, cc)).foldl (fun es ch => compAct ch es) es) =
            alLookup cid es := by
          refine foldl_compAct_ne _ _ _ ?_
          intro ch hch
          rw [hg (k, cc) ch hch]
          exact hk
        cases hlt : alLookup cid t with
        | none => simp only [hes]
        | some cc' =>
            simp only []
            exact foldl_compAct_congr _ _ (fun ch hch => hg (cid, cc') ch hch) _ _ hes

theorem applyChange_entityAdded_lookup (w : World) (i : EntityId) :
    alLookup i (applyChange w (.entityAdded i)) =
      some ((alLookup i w).getD []) := by
  simp only [applyChange]
  cases h : alLookup i w with
  | some es => simp [h]
  | none => simp [alLookup_alInsert_self]

theorem applyChange_lookup_congr (ch : DeltaChange) (w w' : World)
    (h : alLookup (changeEntity ch) w = alLookup (changeEntity ch) w') :
    alLookup (changeEntity ch) (applyChange w ch) =
      alLookup (changeEntity ch) (applyChange w' ch) := by
  cases ch with
  | entityAdded i =>
      simp only [changeEntity] at h ⊢
      rw [applyChange_entityAdded_lookup, applyChange_entityAdded_lookup, h]
  | entityRemoved i =>
      simp only [changeEntity, applyChange]
      rw [alLookup_alRemove, alLookup_alRemove, if_pos rfl, if_pos rfl]
  | componentAdded i cid d =>
      simp only [changeEntity, applyChange] at h ⊢
      rw [alLookup_worldModify, alLookup_worldModify, if_pos rfl, if_pos rfl, h]
  | componentRemoved i cid =>
      simp only [changeEntity, applyChange] at h ⊢
      rw [alLookup_worldModify, alLookup_worldModify, if_pos rfl, if_pos rfl, h]
  | componentUpdated i cid d =>
      simp only [changeEntity, applyChange] at h ⊢
      rw [alLookup_worldModify, alLookup_worldModify, if_pos rfl, if_pos rfl, h]
  | fieldsUpdated i cid fds =>
      simp only [changeEntity, applyChange] at h ⊢
      rw [alLookup_worldModify, alLookup_worldModify, if_pos rfl, if_pos rfl, h]

theorem foldl_applyChange_congr :
    ∀ (chs : List DeltaChange) (i : EntityId),
      (∀ ch ∈ chs, changeEntity ch = i) →
      ∀ (w w' : World), alLookup i w = alLookup i w' →
      alLookup i (chs.foldl applyChange w) = alLookup i (chs.foldl applyChange w') := by
  intro chs
  induction chs with
  | nil => intro i _ w w' h; exact h
  | cons ch t ih =>
      intro i hall w w' h
      have hk := hall ch (List.mem_cons_self _ _)
      rw [List.foldl_cons, List.foldl_cons]
      refine ih i (fun c hc => hall c (List.mem_cons_of_mem _ hc)) _ _ ?_
      subst hk
      exact applyChange_lookup_congr ch w w' h

theorem foldl_applyChange_flatMap
    (F : (EntityId × SerializedEntity) → List DeltaChange)
    (hF : ∀ p, ∀ ch ∈ F p, changeEntity ch = p.1) :
    ∀ (es : List (EntityId × SerializedEntity)) (w : World) (id0 : EntityId),
      (es.map Prod.fst).Nodup →
      alLookup id0 ((es.flatMap F).foldl applyChange w) =
        match alLookup id0 es with
        | some ce => alLookup id0 ((F (id0, ce)).foldl applyChange w)
        | none => alLookup id0 w := by
  intro es
  induction es with
  | nil => intro w id0 _; rfl
  | cons p t ih =>
      intro w id0 hnod
      obtain ⟨k, ce⟩ := p
      rw [List.map_cons, List.nodup_cons] at hnod
      rw [List.flatMap_cons, List.foldl_append, ih _ _ hnod.2]
      by_cases hk : k = id0
      · subst hk
        have hnone : alLookup k t = (none : Option SerializedEntity) := by
          rw [alLookup_eq_none_iff]
          exact hnod.1
        have hcons : alLookup k ((k, ce) :: t) = some ce := by simp [alLookup]
        simp only [hnone, hcons]
      · have hcons : alLookup id0 ((k, ce) :: t) = alLookup id0 t := by
          simp [alLookup, hk]
        rw [hcons]
        have hw : alLookup id0 ((F (k, ce)).foldl applyChange w) =
            alLookup id0 w := by
          refine foldl_applyChange_ne _ _ _ ?_
          intro ch hch
          rw [hF (k, ce) ch hch]
          exact hk
        cases hlt : alLookup id0 t with
        | none => simp only [hw]
        | some ce' =>
            simp only []
            exact foldl_applyChange_congr _ _ (fun ch hch => hF (id0, ce') ch hch) _ _ hw

/-- Witness for C8: a fresh connected manager fed the empty snapshot sends
nothing and succeeds. -/
theorem send_delta_empty_noop_witness :
    ((SyncManager.new ⟨true, false, []⟩
        ⟨.delta, 100, true, RateLimitConfig.default, true, false, 3⟩).send_delta
      0 ⟨[], 0, "1.0.0"⟩).1 = .ok () :=
  (send_delta_empty_noop
    (SyncManager.new ⟨true, false, []⟩
      ⟨.delta, 100, true, RateLimitConfig.default, true, false, 3⟩)
    0 ⟨[], 0, "1.0.0"⟩ rfl rfl).1

theorem components_equal_dataBeq (c : DeltaCompressor) {a b : SerializedComponent}
    (h : c.components_equal a b = true) : dataBeq a.data b.data = true := by
  obtain ⟨aid, ad⟩ := a
  obtain ⟨bid, bd⟩ := b
  simp only [DeltaCompressor.components_equal] at h
  split at h
  · cases h
  · cases ad <;> cases bd <;> simp only [dataBeq] <;> exact h

theorem component_diff_group_key (c : DeltaCompressor) (i : EntityId)
    (prevC : List (String × SerializedComponent)) :
    ∀ (p : String × SerializedComponent),
      ∀ ch ∈ c.component_diff_group i prevC p, changeComponentId ch = p.1 := by
  intro p ch hch
  simp only [DeltaCompressor.component_diff_group] at hch
  repeat' split at hch
  all_goals simp only [List.mem_singleton, List.not_mem_nil] at hch
  all_goals subst hch
  all_goals rfl

theorem component_diff_group_comp (c : DeltaCompressor) (i : EntityId)
    (prevC : List (String × SerializedComponent)) (p : String × SerializedComponent) :
    ∀ ch ∈ c.component_diff_group i prevC p,
      isCompChange ch = true ∧ changeEntity ch = i := by
  intro ch hch
  simp only [DeltaCompressor.component_diff_group] at hch
  repeat' split at hch
  all_goals simp only [List.mem_singleton, List.not_mem_nil] at hch
  all_goals subst hch
  all_goals exact ⟨rfl, rfl⟩

theorem compute_component_changes_comp (c : DeltaCompressor) (i : EntityId)
    (pe ce : SerializedEntity) :
    ∀ ch ∈ c.compute_component_changes i pe ce,
      isCompChange ch = true ∧ changeEntity ch = i := by
  intro ch hch
  simp only [DeltaCompressor.compute_component_changes, List.mem_append,
    List.mem_flatMap, List.mem_map] at hch
  rcases hch with ⟨p, _, hp⟩ | ⟨p, _, hp⟩
  · exact component_diff_group_comp c i _ p ch hp
  · subst hp
    exact ⟨rfl, rfl⟩

theorem entity_diff_group_entity (c : DeltaCompressor)
    (prevE : List (EntityId × SerializedEntity)) :
    ∀ (p : EntityId × SerializedEntity),
      ∀ ch ∈ c.entity_diff_group prevE p, changeEntity ch = p.1 := by
  intro p ch hch
  simp only [DeltaCompressor.entity_diff_group] at hch
  split at hch
  · exact (compute_component_changes_comp c p.1 _ p.2 ch hch).2
  · rcases List.mem_cons.mp hch with h | h
    · subst h
      rfl
    · simp only [List.mem_map] at h
      obtain ⟨comp, _, hc⟩ := h
      subst hc
      rfl

/-- A brand-new entity's components, applied as `ComponentAdded` changes to an
empty component map, reconstruct exactly the snapshot entity's components. -/
theorem reconComponents_new (comps : List SerializedComponent) (i : EntityId) :
    ReconComponentsP
      ((comps.map (fun comp =>
          DeltaChange.componentAdded i comp.id comp.data)).foldl
        (fun es ch => compAct ch es) []) comps := by
  intro cid
  rw [foldl_componentAdds_lookup, indexBy_lookup]
  cases comps.reverse.find? (fun comp => decide (comp.id = cid)) with
  | none => trivial
  | some comp => exact reconData_self comp.data

/-- The `EntityAdded`-then-components change group of a new entity leaves the
entity present with exactly the folded component map. -/
theorem newEntityGroup_lookup (i : EntityId) (comps : List SerializedComponent)
    (w : World) :
    alLookup i ((DeltaChange.entityAdded i ::
        comps.map (fun comp =>
          DeltaChange.componentAdded i comp.id comp.data)).foldl
      applyChange w) =
      some ((comps.map (fun comp =>
          DeltaChange.componentAdded i comp.id comp.data)).foldl
        (fun es ch => compAct ch es) ((alLookup i w).getD [])) := by
  rw [List.foldl_cons]
  have hgrp : ∀ ch ∈ comps.map (fun comp =>
      DeltaChange.componentAdded i comp.id comp.data),
      isCompChange ch = true ∧ changeEntity ch = i := by
    intro ch hch
    simp only [List.mem_map] at hch
    obtain ⟨comp, _, hc⟩ := hch
    subst hc
    exact ⟨rfl, rfl⟩
  rw [foldl_applyChange_comp_group _ i hgrp, if_pos rfl,
    applyChange_entityAdded_lookup]
  rfl

/-- CV2: with field compression disabled, applying one entity's component
diff to a matching component map yields a map matching the current snapshot
entity. -/
theorem reconComponents_step (c : DeltaCompressor)
    (hdis : c.field_compressor.enabled = false)
    (i : EntityId) {pe ce : SerializedEntity} {cm : EntityState}
    (hm : ReconComponentsP cm pe.components) :
    ReconComponentsP
      ((c.compute_component_changes i pe ce).foldl
        (fun es ch => compAct ch es) cm)
      ce.components := by
  intro cid
  have hmc := hm cid
  simp only [DeltaCompressor.compute_component_changes]
  rw [List.foldl_append, foldl_compRemovals_lookup,
    foldl_compAct_flatMap _ (component_diff_group_key c i _) _ _ _
      (indexBy_keys_nodup SerializedComponent.id ce.components)]
  cases hc : alLookup cid (indexBy SerializedComponent.id ce.components) with
  | some cc =>
      have hnr : cid ∉ ((indexBy SerializedComponent.id pe.components).filter
          (fun p => (alLookup p.1
            (indexBy SerializedComponent.id ce.components)).isNone)).map
              Prod.fst := by
        intro hmem
        simp only [List.mem_map, List.mem_filter] at hmem
        obtain ⟨p, ⟨_, hnone⟩, hp1⟩ := hmem
        rw [hp1, hc] at hnone
        simp at hnone
      rw [if_neg hnr]
      simp only [DeltaCompressor.component_diff_group]
      cases hp : alLookup cid (indexBy SerializedComponent.id pe.components) with
      | some pc =>
          rw [hp] at hmc
          simp only []
          cases hcm : alLookup cid cm with
          | none =>
              rw [hcm] at hmc
              exact hmc.elim
          | some d =>
              rw [hcm] at hmc
              by_cases heq : c.components_equal pc cc = true
              · have hcd := reconData_trans_beq hmc (components_equal_dataBeq c heq)
                rw [heq]
                simp only [Bool.not_true, Bool.false_eq_true, if_false,
                  List.foldl_nil, hcm]
                exact hcd
              · have hne : (!c.components_equal pc cc) = true := by
                  cases h' : c.components_equal pc cc
                  · rfl
                  · exact absurd h' heq
                have hen : c.field_compressor.is_enabled = false := by
                  simp [FieldCompressor.is_enabled, hdis]
                rw [hne, if_pos rfl, hen]
                simp only [Bool.false_eq_true, if_false, List.foldl_cons,
                  List.foldl_nil, compAct, alLookup_alInsert_self]
                exact reconData_self cc.data
      | none =>
          simp only [List.foldl_cons, List.foldl_nil, compAct,
            alLookup_alInsert_self]
          exact reconData_self cc.data
  | none =>
      by_cases hrem : cid ∈ ((indexBy SerializedComponent.id pe.components).filter
          (fun p => (alLookup p.1
            (indexBy SerializedComponent.id ce.components)).isNone)).map Prod.fst
      · rw [if_pos hrem]
        trivial
      · rw [if_neg hrem]
        have hpn : alLookup cid (indexBy SerializedComponent.id pe.components) =
            none := by
          cases hp : alLookup cid (indexBy SerializedComponent.id pe.components)
            with
          | none => rfl
          | some pc =>
              exfalso
              apply hrem
              simp only [List.mem_map, List.mem_filter]
              exact ⟨(cid, pc), ⟨alLookup_mem hp, by rw [hc]; rfl⟩, rfl⟩
        rw [hpn] at hmc
        cases hcm : alLookup cid cm with
        | none => trivial
        | some d =>
            rw [hcm] at hmc
            exact hmc.elim

/-- With field compression disabled, one `compute_changes` delta applied to a
matching world yields a world matching the current snapshot. -/
theorem worldMatches_step (c : DeltaCompressor)
    (hdis : c.field_compressor.enabled = false)
    {prev curr : WorldSnapshot} {w : World}
    (hm : WorldMatchesP w prev) :
    WorldMatchesP ((c.compute_changes prev curr).foldl applyChange w) curr := by
  intro id0
  have hm0 := hm id0
  simp only [DeltaCompressor.compute_changes]
  rw [List.foldl_append, foldl_entityRemovals_lookup,
    foldl_applyChange_flatMap _ (entity_diff_group_entity c _) _ _ _
      (indexBy_keys_nodup SerializedEntity.id curr.entities)]
  cases hc : alLookup id0 (indexBy SerializedEntity.id curr.entities) with
  | some ce =>
      have hnr : id0 ∉ ((indexBy SerializedEntity.id prev.entities).filter
          (fun p => (alLookup p.1
            (indexBy SerializedEntity.id curr.entities)).isNone)).map
              Prod.fst := by
        intro hmem
        simp only [List.mem_map, List.mem_filter] at hmem
        obtain ⟨p, ⟨_, hnone⟩, hp1⟩ := hmem
        rw [hp1, hc] at hnone
        simp at hnone
      rw [if_neg hnr]
      simp only [DeltaCompressor.entity_diff_group]
      cases hp : alLookup id0 (indexBy SerializedEntity.id prev.entities) with
      | some pe =>
          rw [hp] at hm0
          simp only []
          rw [foldl_applyChange_comp_group _ id0
            (compute_component_changes_comp c id0 pe ce), if_pos rfl]
          cases hw : alLookup id0 w with
          | none =>
              rw [hw] at hm0
              exact hm0.elim
          | some cm =>
              rw [hw] at hm0
              exact reconComponents_step c hdis id0 hm0
      | none =>
          rw [hp] at hm0
          simp only []
          rw [newEntityGroup_lookup]
          cases hw : alLookup id0 w with
          | some es =>
              rw [hw] at hm0
              exact hm0.elim
          | none =>
              exact reconComponents_new ce.components id0
  | none =>
      by_cases hrem : id0 ∈ ((indexBy SerializedEntity.id prev.entities).filter
          (fun p => (alLookup p.1
            (indexBy SerializedEntity.id curr.entities)).isNone)).map Prod.fst
      · rw [if_pos hrem]
        trivial
      · rw [if_neg hrem]
        have hpn : alLookup id0 (indexBy SerializedEntity.id prev.entities) =
            none := by
          cases hp : alLookup id0 (indexBy SerializedEntity.id prev.entities) with
          | none => rfl
          | some pe =>
              exfalso
              apply hrem
              simp only [List.mem_map, List.mem_filter]
              exact ⟨(id0, pe), ⟨alLookup_mem hp, by rw [hc]; rfl⟩, rfl⟩
        rw [hpn] at hm0
        cases hw : alLookup id0 w with
        | none => trivial
        | some es =>
            rw [hw] at hm0
            exact hm0.elim

theorem alLookup_mapPair {κ α : Type} [DecidableEq κ] (key : α → κ)
    (xs : List α) (k : κ) :
    alLookup k (xs.map (fun x => (key x, x))) =
      xs.find? (fun x => decide (key x = k)) := by
  induction xs with
  | nil => rfl
  | cons x t ih =>
      rw [List.map_cons]
      by_cases h : key x = k
      · rw [List.find?_cons_of_pos _ (by simp [h])]
        simp [alLookup, h]
      · rw [List.find?_cons_of_neg _ (by simp [h])]
        rw [← ih]
        simp [alLookup, h]

theorem nodup_key_inj {κ α : Type} [DecidableEq κ] (key : α → κ)
    {xs : List α} (hnod : (xs.map key).Nodup) {x y : α}
    (hx : x ∈ xs) (hy : y ∈ xs) (hk : key x = key y) : x = y := by
  induction xs with
  | nil => cases hx
  | cons z t ih =>
      rw [List.map_cons, List.nodup_cons] at hnod
      rcases List.mem_cons.mp hx with rfl | hx'
      · rcases List.mem_cons.mp hy with rfl | hy'
        · rfl
        · exfalso
          apply hnod.1
          rw [hk]
          exact List.mem_map_of_mem key hy'
      · rcases List.mem_cons.mp hy with rfl | hy'
        · exfalso
          apply hnod.1
          rw [← hk]
          exact List.mem_map_of_mem key hx'
        · exact ih hnod.2 hx' hy'

/-- Under unique keys, last-match and first-match key lookup agree. -/
theorem find_rev_nodup {κ α : Type} [DecidableEq κ] (key : α → κ)
    (xs : List α) (k : κ) (hnod : (xs.map key).Nodup) :
    xs.reverse.find? (fun x => decide (key x = k)) =
      xs.find? (fun x => decide (key x = k)) := by
  cases hf : xs.find? (fun x => decide (key x = k)) with
  | none =>
      rw [List.find?_eq_none] at hf ⊢
      intro x hx
      exact hf x (List.mem_reverse.mp hx)
  | some x =>
      have hpx := List.find?_some hf
      have hmx := List.mem_of_find?_eq_some hf
      cases hf2 : xs.reverse.find? (fun x => decide (key x = k)) with
      | none =>
          rw [List.find?_eq_none] at hf2
          exact absurd hpx (hf2 x (List.mem_reverse.mpr hmx))
      | some y =>
          have hpy := List.find?_some hf2
          have hmy := List.mem_reverse.mp (List.mem_of_find?_eq_some hf2)
          have hkx : key x = k := of_decide_eq_true hpx
          have hky : key y = k := of_decide_eq_true hpy
          rw [nodup_key_inj key hnod hmy hmx (by rw [hkx, hky])]

/-- CV1 at world level: applying the initial delta of a snapshot with unique
entity ids to the empty world reconstructs the snapshot. -/
theorem worldMatches_initial (c : DeltaCompressor) (s : WorldSnapshot)
    (hnod : (s.entities.map SerializedEntity.id).Nodup) :
    WorldMatchesP ((c.create_initial_delta s).foldl applyChange []) s := by
  intro id0
  simp only [DeltaCompressor.create_initial_delta]
  have hflat : s.entities.flatMap (fun entity =>
      DeltaChange.entityAdded entity.id ::
        entity.components.map (fun component =>
          DeltaChange.componentAdded entity.id component.id component.data)) =
      (s.entities.map (fun e => (e.id, e))).flatMap (fun p =>
        DeltaChange.entityAdded p.1 ::
          p.2.components.map (fun component =>
            DeltaChange.componentAdded p.1 component.id component.data)) := by
    rw [List.flatMap_map]
  have hF : ∀ (p : EntityId × SerializedEntity),
      ∀ ch ∈ (DeltaChange.entityAdded p.1 ::
        p.2.components.map (fun component =>
          DeltaChange.componentAdded p.1 component.id component.data)),
      changeEntity ch = p.1 := by
    intro p ch hch
    rcases List.mem_cons.mp hch with h | h
    · subst h
      rfl
    · simp only [List.mem_map] at h
      obtain ⟨comp, _, hc⟩ := h
      subst hc
      rfl
  have hnodkeys : (((s.entities.map (fun e => (e.id, e))).map Prod.fst)).Nodup := by
    rw [List.map_map]
    exact hnod
  rw [hflat, foldl_applyChange_flatMap _ hF _ _ _ hnodkeys,
    alLookup_mapPair SerializedEntity.id, indexBy_lookup,
    find_rev_nodup SerializedEntity.id s.entities id0 hnod]
  cases hfind : s.entities.find? (fun x => decide (SerializedEntity.id x = id0))
    with
  | none => trivial
  | some e =>
      simp only []
      rw [newEntityGroup_lookup]
      exact reconComponents_new e.components id0

/-- The pointwise matching Prop implies the executable `reconComponents`. -/
theorem reconComponents_of_P {es : EntityState}
    {comps : List SerializedComponent}
    (h : ReconComponentsP es comps) : reconComponents es comps = true := by
  simp only [reconComponents, List.all_eq_true]
  intro cid _
  have hc := h cid
  cases h1 : alLookup cid es <;>
    cases h2 : alLookup cid (indexBy SerializedComponent.id comps) <;>
      rw [h1, h2] at hc <;>
        first
          | rfl
          | exact hc
          | exact hc.elim

/-- The pointwise matching Prop implies the executable `worldMatches`. -/
theorem worldMatches_of_P {w : World} {s : WorldSnapshot}
    (h : WorldMatchesP w s) : worldMatches w s = true := by
  simp only [worldMatches, List.all_eq_true]
  intro id0 _
  have hc := h id0
  cases h1 : alLookup id0 w <;>
    cases h2 : alLookup id0 (indexBy SerializedEntity.id s.entities) <;>
      rw [h1, h2] at hc <;>
        first
          | rfl
          | exact reconComponents_of_P hc
          | exact hc.elim

/-- Induction step over a snapshot trace: from a compressor that holds `prev`
as its previous snapshot and a world matching `prev`, every prefix of the
emitted deltas reconstructs the corresponding snapshot (field compression
disabled). -/
theorem runCompressor_sound_aux :
    ∀ (ss : List WorldSnapshot) (c : DeltaCompressor) (w : World)
      (prev : WorldSnapshot),
      c.field_compressor.enabled = false →
      c.previous_snapshot = some prev →
      WorldMatchesP w prev →
      ∀ i (hi : i < ss.length),
        WorldMatchesP (applyDeltas w ((runCompressor c ss).take (i + 1)))
          (ss.get ⟨i, hi⟩) := by
  intro ss
  induction ss with
  | nil =>
      intro c w prev _ _ _ i hi
      exact absurd hi (by simp)
  | cons s rest ih =>
      intro c w prev hdis hprev hm i hi
      have hd0 : (c.create_delta s).1.changes = c.compute_changes prev s := by
        simp [DeltaCompressor.create_delta, hprev]
      have hstep : WorldMatchesP ((c.compute_changes prev s).foldl applyChange w)
          s := worldMatches_step c hdis hm
      cases i with
      | zero =>
          simp only [runCompressor, List.take_succ_cons, List.take_zero,
            applyDeltas, List.foldl_cons, List.foldl_nil, applyDelta, hd0]
          exact hstep
      | succ j =>
          simp only [runCompressor, List.take_succ_cons, applyDeltas,
            List.foldl_cons]
          have hc1 : (c.create_delta s).2.previous_snapshot = some s := rfl
          have hc2 : (c.create_delta s).2.field_compressor.enabled = false :=
            hdis
          have happ : applyDelta w (c.create_delta s).1 =
              (c.compute_changes prev s).foldl applyChange w := by
            simp [applyDelta, hd0]
          have hin : WorldMatchesP (applyDelta w (c.create_delta s).1) s := by
            rw [happ]
            exact hstep
          exact ih _ _ _ hc2 hc1 hin j (by simpa using hi)

/-- C1, corrected to the field-compression-disabled configuration refuted for
the enabled one by `delta_soundness_counterexample`: feeding any sequence of
well-formed snapshots to one `DeltaCompressor` with field compression
disabled and applying every emitted delta in order, starting from the empty
world, reconstructs each snapshot up to entity/component iteration order. -/
theorem delta_soundness_disabled (ss : List WorldSnapshot)
    (hwf : ∀ s ∈ ss, wfSnapshot s) :
    ∀ i (hi : i < ss.length),
      worldMatches
        (applyDeltas []
          ((runCompressor (DeltaCompressor.with_field_compression false)
            ss).take (i + 1)))
        (ss.get ⟨i, hi⟩) = true := by
  intro i hi
  apply worldMatches_of_P
  cases ss with
  | nil => exact absurd hi (by simp)
  | cons s0 rest =>
      have hwf0 := (hwf s0 (List.mem_cons_self _ _)).1
      have hd0 : ((DeltaCompressor.with_field_compression false).create_delta
          s0).1.changes =
          (DeltaCompressor.with_field_compression false).create_initial_delta
            s0 := rfl
      have hinit : WorldMatchesP
          (applyDelta [] ((DeltaCompressor.with_field_compression
            false).create_delta s0).1) s0 := by
        show WorldMatchesP
          ((((DeltaCompressor.with_field_compression false).create_delta
            s0).1.changes).foldl applyChange []) s0
        rw [hd0]
        exact worldMatches_initial _ s0 hwf0
      cases i with
      | zero =>
          simp only [runCompressor, List.take_succ_cons, List.take_zero,
            applyDeltas, List.foldl_cons, List.foldl_nil]
          exact hinit
      | succ j =>
          simp only [runCompressor, List.take_succ_cons, applyDeltas,
            List.foldl_cons]
          exact runCompressor_sound_aux rest _ _ s0 rfl rfl hinit j
            (by simpa using hi)

/-- C1 as stated is false with field compression enabled: updating a
`Structured` field to `Null` is emitted as a `FieldsUpdated` delta whose
`new_value = Null`, which on the receiver means "field removed" (spec §3),
so the reconstructed component lacks a field the snapshot still carries.
Both snapshots are well-formed, yet after applying both emitted deltas the
world does not match the second snapshot. -/
theorem delta_soundness_counterexample :
    wfSnapshot ⟨[⟨1, [⟨"c", .structured [("f", .bool true)]⟩]⟩], 0, "1"⟩ ∧
    wfSnapshot ⟨[⟨1, [⟨"c", .structured [("f", .null)]⟩]⟩], 0, "1"⟩ ∧
    worldMatches
      (applyDeltas []
        (runCompressor (DeltaCompressor.with_field_compression true)
          [⟨[⟨1, [⟨"c", .structured [("f", .bool true)]⟩]⟩], 0, "1"⟩,
           ⟨[⟨1, [⟨"c", .structured [("f", .null)]⟩]⟩], 0, "1"⟩]))
      ⟨[⟨1, [⟨"c", .structured [("f", .null)]⟩]⟩], 0, "1"⟩ = false :=
  ⟨by decide, by decide, by decide⟩

/-- Witness for the amended C1: a two-snapshot trace (a `Bool` field flips)
with field compression disabled reconstructs the second snapshot. -/
theorem delta_soundness_disabled_witness :
    (wfSnapshot ⟨[⟨1, [⟨"c", .structured [("f", .bool true)]⟩]⟩], 0, "1"⟩ ∧
     wfSnapshot ⟨[⟨1, [⟨"c", .structured [("f", .bool false)]⟩]⟩], 0, "1"⟩) ∧
    worldMatches
      (applyDeltas []
        ((runCompressor (DeltaCompressor.with_field_compression false)
          [⟨[⟨1, [⟨"c", .structured [("f", .bool true)]⟩]⟩], 0, "1"⟩,
           ⟨[⟨1, [⟨"c", .structured [("f", .bool false)]⟩]⟩], 0, "1"⟩]).take 2))
      ⟨[⟨1, [⟨"c", .structured [("f", .bool false)]⟩]⟩], 0, "1"⟩ = true :=
  ⟨⟨by decide, by decide⟩,
    delta_soundness_disabled
      [⟨[⟨1, [⟨"c", .structured [("f", .bool true)]⟩]⟩], 0, "1"⟩,
       ⟨[⟨1, [⟨"c", .structured [("f", .bool false)]⟩]⟩], 0, "1"⟩]
      (by decide) 1 (by decide)⟩

end TxLink
